import Mathlib

/-!
Verification of the `rules_tcl` linting/format-check action runners
(`tcl/private/linting/format_checker.py`, `tcl/private/linting/linter.py`)
against their specification.

The Python code is shallowly embedded: paths follow `pathlib.PurePosixPath`,
the filesystem is a map from paths to file contents, and the external
`tclint`/`tclfmt` entrypoints are abstract functions whose contracts appear
as hypotheses of the theorems.
-/

namespace RulesTcl

/-- A POSIX-style file path, mirroring `pathlib.PurePosixPath`: `absolute`
records whether the path has a leading root, and `parts` holds the path
components (the root itself is not stored in `parts`). -/
structure PyPath where
  absolute : Bool
  parts : List String
deriving DecidableEq, Repr

/-- `PurePath.name`: the final path component (empty for a bare root). -/
def PyPath.name (p : PyPath) : String := p.parts.getLastD ""

/-- `str(path)` for a POSIX path (`pathlib` renders the empty relative path
as `.`). -/
def pathStr (p : PyPath) : String :=
  if p.absolute then "/" ++ String.intercalate "/" p.parts
  else if p.parts = [] then "." else String.intercalate "/" p.parts

/-- `PurePath.__truediv__`: joining with an absolute right operand discards
the left operand, as in `pathlib`. -/
def joinPath (a b : PyPath) : PyPath :=
  if b.absolute then b else ⟨a.absolute, a.parts ++ b.parts⟩

/-- Boolean test that `front` is an initial run of the components of the
second list. -/
def leads : List String → List String → Bool
  | [], _ => true
  | _ :: _, [] => false
  | x :: xs, y :: ys => (x == y) && leads xs ys

/-- `p` lies at or below `root`: same rootedness and `root`'s components are
an initial run of `p`'s. -/
def PyPath.isUnder (p root : PyPath) : Bool :=
  (p.absolute == root.absolute) && leads root.parts p.parts

/-- `PurePath.relative_to`: succeeds exactly when `base` is an initial
sub-path of `p`, returning the remaining (relative) components; `none`
models the `ValueError` raised otherwise. -/
def relative_to (p base : PyPath) : Option PyPath :=
  if (base.absolute == p.absolute) && leads base.parts p.parts then
    some ⟨false, p.parts.drop base.parts.length⟩
  else none

/-- Longest common initial run of two component lists. -/
def commonParts : List String → List String → List String
  | x :: xs, y :: ys => if x = y then x :: commonParts xs ys else []
  | _, _ => []

/-- Python exceptions that the embedded code can raise. -/
inductive PyErr where
  | valueError
  | fileNotFound
  | toolError
deriving DecidableEq, Repr

/-- `os.path.commonpath`: raises `ValueError` on an empty sequence and on
mixed absolute/relative inputs; otherwise returns the longest common
sub-path of all the inputs. -/
def commonpath (paths : List PyPath) : Except PyErr PyPath :=
  match paths with
  | [] => .error .valueError
  | p :: rest =>
    if rest.all (fun q => q.absolute == p.absolute) then
      .ok ⟨p.absolute, rest.foldl (fun acc q => commonParts acc q.parts) p.parts⟩
    else .error .valueError

/-- `Path(*src_abs.parts[-2:])`: the last two `pathlib` parts of a path;
for an absolute path the root `/` is itself one of the parts, so a
one-component absolute path yields an absolute result. -/
def lastTwoFallback (p : PyPath) : PyPath :=
  let pyParts := (if p.absolute then ["/"] else []) ++ p.parts
  match pyParts.drop (pyParts.length - 2) with
  | "/" :: rest => ⟨true, rest⟩
  | rest => ⟨false, rest⟩

/-- The filesystem: file contents indexed by path. Directories and file
metadata are not modelled (`mkdir` is a no-op, `copy2` copies content). -/
def FS := PyPath → Option String

/-- Writing a file (`write_bytes`, or the destination side of `copy2`). -/
def FS.update (fs : FS) (p : PyPath) (c : String) : FS :=
  fun q => if q = p then some c else fs q

/-- `tempfile.TemporaryDirectory.__exit__`: every file at or below `root`
is removed. -/
def FS.cleanupUnder (fs : FS) (root : PyPath) : FS :=
  fun q => if q.isUnder root then none else fs q

/-- How a wrapped Python entrypoint can finish: return a value (`None` or an
integer status), raise `SystemExit` carrying an optional status, or raise
any other exception. Exit statuses are modelled as integers. -/
inductive ToolOutcome where
  | ret (v : Option Int)
  | exit (c : Option Int)
  | raise
deriving DecidableEq, Repr

/-- Abstract external `tclfmt` entrypoint (`tclint.cli.tclfmt.main`): given
the config path, source list and mode flags (parsed from the argv the caller
installs) and the current filesystem, it finishes in some way, emits
combined stdout/stderr text, and leaves a filesystem. -/
def Tool := PyPath → List PyPath → List String → FS → ToolOutcome × String × FS

/-- Abstract external `tclint` entrypoint (`tclint.cli.tclint.main`). -/
def LintTool := PyPath → List PyPath → FS → ToolOutcome × String × FS

/-- Where a standard stream currently points: the real stream, or the
capture buffer installed by `redirect_stdout`/`redirect_stderr`. -/
inductive Sink where
  | real
  | buffer
deriving DecidableEq, Repr

/-- Process-global interpreter state touched by the tool invokers:
`sys.argv` and the targets of the two standard streams. -/
structure Globals where
  argv : List String
  stdout : Sink
  stderr : Sink
deriving DecidableEq, Repr

/-- The single integer status both completion conventions normalize to: a
returned value or a `SystemExit` payload, with `None` meaning 0. -/
def statusOf : ToolOutcome → Int
  | .ret v => v.getD 0
  | .exit c => c.getD 0
  | .raise => 0

/-- Normalized status of an outcome, `none` for an uncaught exception. -/
def normStatus : ToolOutcome → Option Int
  | .raise => none
  | o => some (statusOf o)

/-- `format_checker.run_format`: builds the `tclfmt` argv, repoints
`sys.argv`, redirects both standard streams into one shared buffer, runs the
tool, then restores the globals (the `with` blocks and the `finally` run on
every path) and normalizes the outcome. An exception other than `SystemExit`
propagates to the caller (`Except.error`), still with the globals
restored. -/
def run_format (tclfmt_main : Tool) (config : PyPath) (srcs : List PyPath)
    (extra_args : List String) (fs : FS) (g : Globals) :
    Except PyErr (Int × String) × FS × Globals :=
  let tool_args := ["tclfmt", "--config", pathStr config] ++ srcs.map pathStr ++ extra_args
  let original_argv := g.argv
  let g1 : Globals := { g with argv := tool_args }
  let saved_stdout := g1.stdout
  let saved_stderr := g1.stderr
  let g2 : Globals := { g1 with stdout := .buffer, stderr := .buffer }
  match tclfmt_main config srcs extra_args fs with
  | (outcome, captured_output, fs1) =>
    let g3 : Globals := { g2 with stdout := saved_stdout, stderr := saved_stderr }
    let g4 : Globals := { g3 with argv := original_argv }
    match outcome with
    | .raise => (.error .toolError, fs1, g4)
    | .ret r => (.ok (r.getD 0, captured_output), fs1, g4)
    | .exit c => (.ok (c.getD 0, captured_output), fs1, g4)

/-- `linter.run_lint`: same invoker shape for `tclint` (no mode flags).
The source normalizes a `SystemExit` payload with `int(e.code)` when it is
an integer and 0 when it is `None`; a non-integer payload (mapped to 1 in
the source) is outside the integer-status model. -/
def run_lint (tclint_main : LintTool) (config : PyPath) (srcs : List PyPath)
    (fs : FS) (g : Globals) :
    Except PyErr (Int × String) × FS × Globals :=
  let tool_args := ["tclint", "--config", pathStr config] ++ srcs.map pathStr
  let original_argv := g.argv
  let g1 : Globals := { g with argv := tool_args }
  let saved_stdout := g1.stdout
  let saved_stderr := g1.stderr
  let g2 : Globals := { g1 with stdout := .buffer, stderr := .buffer }
  match tclint_main config srcs fs with
  | (outcome, captured_output, fs1) =>
    let g3 : Globals := { g2 with stdout := saved_stdout, stderr := saved_stderr }
    let g4 : Globals := { g3 with argv := original_argv }
    match outcome with
    | .raise => (.error .toolError, fs1, g4)
    | .ret r => (.ok (r.getD 0, captured_output), fs1, g4)
    | .exit c =>
      match c with
      | some v => (.ok (v, captured_output), fs1, g4)
      | none => (.ok (0, captured_output), fs1, g4)

/-- The normalized result component shared by both invokers: a propagated
exception for `raise`, otherwise the normalized status with the captured
output. -/
def invokeResult (o : ToolOutcome) (out : String) : Except PyErr (Int × String) :=
  match o with
  | .raise => .error .toolError
  | .ret r => .ok (r.getD 0, out)
  | .exit c => .ok (c.getD 0, out)

/-- A Python `dict` keyed by paths with insertion-ordered items: inserting
an existing key updates it in place, a new key is appended. -/
def dictInsert : List (PyPath × PyPath) → PyPath → PyPath → List (PyPath × PyPath)
  | [], k, v => [(k, v)]
  | (k0, v0) :: rest, k, v =>
    if k0 = k then (k0, v) :: rest else (k0, v0) :: dictInsert rest k v

/-- Lookup in a path dict. -/
def dictFind : List (PyPath × PyPath) → PyPath → Option PyPath
  | [], _ => none
  | (k0, v0) :: rest, k => if k0 = k then some v0 else dictFind rest k

/-- `shutil.copy2(src, dst)`: read the source (raising `FileNotFoundError`
when it does not exist) and write its content to the destination. Metadata
copying is not modelled. -/
def copy2 (fs : FS) (src dst : PyPath) : Except PyErr FS :=
  match fs src with
  | none => .error .fileNotFound
  | some content => .ok (fs.update dst content)

/-- The `try: rel_path = src_abs.relative_to(common_prefix) except
ValueError: rel_path = Path(*src_abs.parts[-2:])` computation of
`copy_to_temp_preserving_paths`. -/
def relOf (common_ancestor src_abs : PyPath) : PyPath :=
  match relative_to src_abs common_ancestor with
  | some r => r
  | none => lastTwoFallback src_abs

/-- The `for src_abs in resolved_srcs` loop of
`copy_to_temp_preserving_paths` (multi-file branch): each source's relative
path against the common ancestor is computed (falling back to its last two
`pathlib` parts when `relative_to` raises), the copy is placed at
`temp_dir / rel_path`, and the mapping is recorded. On a copy failure the
exception propagates, preserving the filesystem writes made so far. -/
def copyLoop (common_ancestor temp_dir : PyPath) :
    List PyPath → List (PyPath × PyPath) → FS →
    Except PyErr (List (PyPath × PyPath)) × FS
  | [], path_map, fs => (.ok path_map, fs)
  | src_abs :: rest, path_map, fs =>
    let temp_file := joinPath temp_dir (relOf common_ancestor src_abs)
    match copy2 fs src_abs temp_file with
    | .error e => (.error e, fs)
    | .ok fs1 => copyLoop common_ancestor temp_dir rest (dictInsert path_map src_abs temp_file) fs1

/-- `format_checker.copy_to_temp_preserving_paths`: a single source is
staged directly under the temp root by file name; multiple sources are
staged relative to `os.path.commonpath` of all of them (whose `ValueError`,
e.g. for mixed absolute/relative inputs, propagates uncaught). Returns the
original → staged mapping together with the resulting filesystem. -/
def copy_to_temp_preserving_paths (srcs : List PyPath) (temp_dir : PyPath) (fs : FS) :
    Except PyErr (List (PyPath × PyPath)) × FS :=
  match srcs with
  | [src_abs] =>
    let temp_file := joinPath temp_dir ⟨false, [src_abs.name]⟩
    match copy2 fs src_abs temp_file with
    | .error e => (.error e, fs)
    | .ok fs1 => (.ok [(src_abs, temp_file)], fs1)
  | _ =>
    match commonpath srcs with
    | .error e => (.error e, fs)
    | .ok common_ancestor => copyLoop common_ancestor temp_dir srcs [] fs

/-- One line-level edit operation of a diff. -/
inductive DiffOp where
  | keep (s : String)
  | del (s : String)
  | ins (s : String)
deriving DecidableEq, Repr

/-- Whether an edit operation leaves its line unchanged. -/
def DiffOp.isKeep : DiffOp → Bool
  | .keep _ => true
  | _ => false

/-- Number of changed lines of an edit script. -/
def diffCost (ops : List DiffOp) : Nat := ops.countP (fun o => !o.isKeep)

/-- Fuel-indexed core of `diffOps`: equal lines are kept, otherwise the
cheaper of deleting from the left or inserting from the right sequence is
chosen. Exhausted fuel (never reached when the fuel is at least
`a.length + b.length`) degrades to delete-everything/insert-everything,
which is still a sound edit script. -/
def diffOpsF : Nat → List String → List String → List DiffOp
  | _, [], bs => bs.map .ins
  | 0, a :: as, bs => (a :: as).map .del ++ bs.map .ins
  | n + 1, a :: as, [] => .del a :: diffOpsF n as []
  | n + 1, a :: as, b :: bs =>
    if a = b then .keep a :: diffOpsF n as bs
    else
      let d1 := diffOpsF n as (b :: bs)
      let d2 := diffOpsF n (a :: as) bs
      if diffCost d1 ≤ diffCost d2 then .del a :: d1 else .ins b :: d2

/-- A minimal line-level edit script between two line sequences, modelling
the matching computed by `difflib.SequenceMatcher`. -/
def diffOps (a b : List String) : List DiffOp := diffOpsF (a.length + b.length) a b

/-- The left-hand line sequence an edit script describes. -/
def opsSource : List DiffOp → List String
  | [] => []
  | .keep s :: rest => s :: opsSource rest
  | .del s :: rest => s :: opsSource rest
  | .ins _ :: rest => opsSource rest

/-- The right-hand line sequence an edit script describes. -/
def opsTarget : List DiffOp → List String
  | [] => []
  | .keep s :: rest => s :: opsTarget rest
  | .del _ :: rest => opsTarget rest
  | .ins s :: rest => s :: opsTarget rest

/-- Rendering of one edit operation in unified-diff body syntax. -/
def renderOp : DiffOp → String
  | .keep s => " " ++ s
  | .del s => "-" ++ s
  | .ins s => "+" ++ s

/-- `difflib._format_range_unified` on a 0-based `start, stop` range: a
one-line range prints as its 1-based line number alone, and an empty range
steps the beginning back by one. -/
def format_range_unified (start stop : Nat) : String :=
  let beginning := start + 1
  let length := stop - start
  if length = 1 then toString beginning
  else toString (if length = 0 then beginning - 1 else beginning) ++ "," ++ toString length

/-- `difflib.unified_diff` over two line sequences, with
`get_grouped_opcodes`'s hunk selection collapsed to a single full-context
hunk: when the edit script contains no change, no group is produced and the
output is empty (as in `difflib`, which discards an all-equal opcode group);
otherwise the two header lines labelled `fromfile`/`tofile` are emitted
before the hunk. `lineterm=""` is in force, so lines carry no newlines. -/
def unified_diff (a b : List String) (fromfile tofile : String) : List String :=
  let ops := diffOps a b
  if ops.all DiffOp.isKeep then []
  else
    ("--- " ++ fromfile) ::
    ("+++ " ++ tofile) ::
    ("@@ -" ++ format_range_unified 0 a.length ++ " +" ++
      format_range_unified 0 b.length ++ " @@") ::
    ops.map renderOp

/-- The characters `str.splitlines` treats as line boundaries (the `\r\n`
pair is handled separately): LF, CR, vertical tab, form feed, the
file/group/record separators, NEL, LINE SEPARATOR and PARAGRAPH
SEPARATOR. -/
def isLineBoundary (c : Char) : Bool :=
  c == '\n' || c == '\r' || c == '\x0B' || c == '\x0C' || c == '\x1c' ||
  c == '\x1d' || c == '\x1e' || c == '\x85' || c == '\u2028' || c == '\u2029'

/-- Core of `str.splitlines`: the text is split at every line boundary,
`\r\n` counts as a single boundary (`afterCR` records that the previous
character was a `\r`, so an immediately following `\n` is swallowed), and
a final empty segment after a trailing boundary is not included. -/
def splitlinesGo (afterCR : Bool) (cur : List Char) : List Char → List (List Char)
  | [] => if cur.isEmpty then [] else [cur.reverse]
  | c :: cs =>
    if afterCR = true ∧ c = '\n' then splitlinesGo false cur cs
    else if c = '\r' then cur.reverse :: splitlinesGo true [] cs
    else if isLineBoundary c then cur.reverse :: splitlinesGo false [] cs
    else splitlinesGo false (c :: cur) cs

/-- `str.splitlines` on a string. -/
def splitlines (s : String) : List String :=
  (splitlinesGo false [] s.data).map (fun l => String.mk l)

/-- `format_checker.generate_diff`: read both files (a missing file raises),
split their contents into lines, and join the unified diff — labelled with
the original path and the original path plus the ` - formatted` marker —
with newlines. -/
def generate_diff (fs : FS) (original_path formatted_path : PyPath) :
    Except PyErr String :=
  match fs original_path, fs formatted_path with
  | some original_text, some formatted_text =>
    .ok (String.intercalate "\n"
      (unified_diff (splitlines original_text) (splitlines formatted_text)
        (pathStr original_path) (pathStr original_path ++ " - formatted")))
  | _, _ => .error .fileNotFound

/-- The `for original_path, temp_path_mapped in path_map.items()` loop of
`format_checker.main`: each non-empty diff is printed to stderr; a read
failure propagates, keeping the output printed so far. -/
def diffLoop : List (PyPath × PyPath) → FS → List String × Except PyErr Unit
  | [], _ => ([], .ok ())
  | (original_path, temp_path_mapped) :: rest, fs =>
    match generate_diff fs original_path temp_path_mapped with
    | .error e => ([], .error e)
    | .ok d =>
      let (out, r) := diffLoop rest fs
      (if d = "" then out else d :: out, r)

/-- The parsed command line of the two action runners: repeated `--src`,
required `--config`, optional `--marker`. -/
structure Args where
  srcs : List PyPath
  config : PyPath
  marker : Option PyPath

/-- Observable result of one runner process: `sys.exit` status (or a
propagated exception), the chunks printed to stderr, and the final
filesystem. -/
structure MainResult where
  exit : Except PyErr Int
  stderr : List String
  fs : FS

/-- The body of the `with tempfile.TemporaryDirectory()` block of
`format_checker.main`: stage the sources, run `tclfmt --in-place` over the
sorted staged copies, and on success print a diff per changed file. The
caller removes the staging root on every exit of this body. -/
def withTempBody (tclfmt_main : Tool) (args : Args) (temp_dir : PyPath)
    (fs : FS) (g : Globals) : MainResult :=
  match copy_to_temp_preserving_paths args.srcs temp_dir fs with
  | (.error e, fs2) => ⟨.error e, [], fs2⟩
  | (.ok path_map, fs2) =>
    let temp_srcs :=
      List.insertionSort (fun a b => pathStr a ≤ pathStr b) (path_map.map Prod.snd)
    match run_format tclfmt_main args.config temp_srcs ["--in-place"] fs2 g with
    | (.error e, fs3, _) => ⟨.error e, [], fs3⟩
    | (.ok (fmt_code, fmt_output), fs3, _) =>
      if fmt_code ≠ 0 then ⟨.ok fmt_code, [fmt_output], fs3⟩
      else
        match diffLoop path_map fs3 with
        | (diffs, .error e) => ⟨.error e, diffs, fs3⟩
        | (diffs, .ok _) => ⟨.ok 1, diffs, fs3⟩

/-- `format_checker.main`: run the `--check` pass on the real sources; on
status 0 touch the marker (when given) and exit 0. Otherwise print the check
output, stage copies into a fresh temporary root, reformat the copies in
place, print per-file diffs, remove the temporary root unconditionally
(`TemporaryDirectory` also cleans up when an exception or `sys.exit`
escapes the block), and exit — with the reformat run's own status when that
run failed, and with the fixed status 1 otherwise. -/
def format_checker_main (tclfmt_main : Tool) (args : Args) (temp_dir : PyPath)
    (fs : FS) (g : Globals) : MainResult :=
  match run_format tclfmt_main args.config args.srcs ["--check"] fs g with
  | (.error e, fs1, _) => ⟨.error e, [], fs1⟩
  | (.ok (check_code, check_output), fs1, g1) =>
    if check_code = 0 then
      match args.marker with
      | some m => ⟨.ok 0, [], fs1.update m ""⟩
      | none => ⟨.ok 0, [], fs1⟩
    else
      let body := withTempBody tclfmt_main args temp_dir fs1 g1
      ⟨body.exit, check_output :: body.stderr, body.fs.cleanupUnder temp_dir⟩

/-- `linter.main`: one `run_lint` call; on a non-zero status print the
captured output to stderr and exit with that status, otherwise touch the
marker (when given) and finish with status 0. -/
def linter_main (tclint_main : LintTool) (args : Args) (fs : FS) (g : Globals) :
    MainResult :=
  match run_lint tclint_main args.config args.srcs fs g with
  | (.error e, fs1, _) => ⟨.error e, [], fs1⟩
  | (.ok (lint_code, lint_output), fs1, _) =>
    if lint_code ≠ 0 then ⟨.ok lint_code, [lint_output], fs1⟩
    else
      match args.marker with
      | some m => ⟨.ok 0, [], fs1.update m ""⟩
      | none => ⟨.ok 0, [], fs1⟩

deriving instance DecidableEq for Except

/-! ### Concrete sample data for closed runs -/

def srcA : PyPath := ⟨true, ["work", "a.tcl"]⟩

def srcB : PyPath := ⟨true, ["work", "sub", "b.tcl"]⟩

def relX : PyPath := ⟨false, ["a", "b", "x.tcl"]⟩

def relY : PyPath := ⟨false, ["a", "c", "y.tcl"]⟩

def cfgP : PyPath := ⟨true, ["work", "lint.cfg"]⟩

def markerP : PyPath := ⟨true, ["out", "marker"]⟩

def tempP : PyPath := ⟨true, ["tmp", "t0"]⟩

def stagedA : PyPath := ⟨true, ["tmp", "t0", "a.tcl"]⟩

def g0 : Globals := ⟨["runner"], .real, .real⟩

def fs0 : FS := fun p =>
  if p = srcA then some "set x 1"
  else if p = srcB then some "set y  2"
  else none

def fsRel : FS := fun p =>
  if p = relX then some "set x 1"
  else if p = relY then some "set y 2"
  else none

def argsA : Args := ⟨[srcA], cfgP, some markerP⟩

/-- A sample formatter with a fixed check outcome and a fixed in-place
outcome, whose in-place run rewrites each listed file to `body`. -/
def mkTool (chk inp : ToolOutcome) (chkOut inpOut body : String) : Tool :=
  fun _ s e f =>
    if e = ["--check"] then (chk, chkOut, f)
    else (inp, inpOut, fun p => if p ∈ s then some body else f p)

def toolPass : Tool := mkTool (.ret (some 0)) (.ret (some 0)) "" "" "formatted\n"

def toolNoncon : Tool := mkTool (.exit (some 5)) (.ret (some 0)) "bad format" "" "formatted\n"

def toolCrash : Tool := mkTool (.exit (some 5)) (.ret (some 7)) "bad format" "fmt crashed" "formatted\n"

def toolNL : Tool := mkTool (.exit (some 1)) (.ret (some 0)) "needs formatting" "" "set x 1\n"

def toolC6 : Tool := fun _ _ _ f => (.exit (some 3), "boom", f)

def ltoolC6 : LintTool := fun _ _ f => (.exit (some 3), "boom", f)

def ltoolFail : LintTool := fun _ _ f => (.ret (some 2), "lint issues", f)

def ltoolPass : LintTool := fun _ _ f => (.ret none, "", f)

def mixedSrcs : List PyPath := [⟨true, ["a", "x.tcl"]⟩, ⟨false, ["b", "y.tcl"]⟩]

def fsW5 : FS := fun p =>
  if p = srcA then some "set x 1\n"
  else if p = stagedA then some "set x 1"
  else none

def fsW10 : FS := fun p =>
  if p = srcA then some "set x 1"
  else if p = stagedA then some "set x 1\n"
  else none

def fsCE : FS := fun p =>
  if p = srcA then some ""
  else if p = stagedA then some "\n"
  else none

def fsVT : FS := fun p =>
  if p = srcA then some "abc\x0B"
  else if p = stagedA then some "abc\x0B\n"
  else none

def fsNL : FS := fun p => if p = srcA then some "set x 1" else none

def argsNL : Args := ⟨[srcA], cfgP, none⟩

/-! ### Lemmas about path component runs and `commonpath` -/

theorem leads_refl (l : List String) : leads l l = true := by
  induction l with
  | nil => rfl
  | cons x xs ih => simp [leads, ih]

theorem leads_trans {a b c : List String} (h1 : leads a b = true)
    (h2 : leads b c = true) : leads a c = true := by
  induction a generalizing b c with
  | nil => rfl
  | cons x xs ih =>
    cases b with
    | nil => simp [leads] at h1
    | cons y ys =>
      cases c with
      | nil => simp [leads] at h2
      | cons z zs =>
        simp only [leads, Bool.and_eq_true, beq_iff_eq] at h1 h2 ⊢
        exact ⟨h1.1.trans h2.1, ih h1.2 h2.2⟩

theorem leads_append (a t : List String) : leads a (a ++ t) = true := by
  induction a with
  | nil => rfl
  | cons x xs ih => simp [leads, ih]

theorem commonParts_leads_left (a : List String) :
    ∀ b, leads (commonParts a b) a = true := by
  induction a with
  | nil => intro b; cases b <;> rfl
  | cons x xs ih =>
    intro b
    cases b with
    | nil => rfl
    | cons y ys =>
      by_cases h : x = y
      · simp [commonParts, h, leads, ih]
      · simp [commonParts, h, leads]

theorem commonParts_leads_right (a : List String) :
    ∀ b, leads (commonParts a b) b = true := by
  induction a with
  | nil => intro b; cases b <;> rfl
  | cons x xs ih =>
    intro b
    cases b with
    | nil => rfl
    | cons y ys =>
      by_cases h : x = y
      · subst h; simp [commonParts, leads, ih]
      · simp [commonParts, h, leads]

theorem foldl_commonParts_leads_init (rest : List PyPath) :
    ∀ init : List String,
      leads (rest.foldl (fun acc q => commonParts acc q.parts) init) init = true := by
  induction rest with
  | nil => intro init; exact leads_refl init
  | cons q t ih =>
    intro init
    exact leads_trans (ih (commonParts init q.parts)) (commonParts_leads_left init q.parts)

theorem foldl_commonParts_leads_mem {rest : List PyPath} {q : PyPath} (hq : q ∈ rest) :
    ∀ init : List String,
      leads (rest.foldl (fun acc a => commonParts acc a.parts) init) q.parts = true := by
  induction rest with
  | nil => cases hq
  | cons r t ih =>
    intro init
    rcases List.mem_cons.mp hq with h | h
    · subst h
      exact leads_trans (foldl_commonParts_leads_init t _)
        (commonParts_leads_right init q.parts)
    · exact ih h _

theorem commonpath_ok {srcs : List PyPath} {cp : PyPath}
    (h : commonpath srcs = .ok cp) :
    ∀ s ∈ srcs, cp.absolute = s.absolute ∧ leads cp.parts s.parts = true := by
  cases srcs with
  | nil => simp [commonpath] at h
  | cons p rest =>
    rw [commonpath] at h
    split at h
    case isTrue hall =>
      rw [Except.ok.injEq] at h
      subst h
      intro s hs
      rcases List.mem_cons.mp hs with h1 | h1
      · rw [h1]
        exact ⟨rfl, foldl_commonParts_leads_init rest p.parts⟩
      · refine ⟨?_, foldl_commonParts_leads_mem h1 p.parts⟩
        have hq := List.all_eq_true.mp hall s h1
        simp only [beq_iff_eq] at hq
        exact hq.symm
    case isFalse _ => cases h

theorem relative_to_of_commonpath {srcs : List PyPath} {cp : PyPath}
    (h : commonpath srcs = .ok cp) {s : PyPath} (hs : s ∈ srcs) :
    relative_to s cp = some ⟨false, s.parts.drop cp.parts.length⟩ := by
  obtain ⟨h1, h2⟩ := commonpath_ok h s hs
  simp [relative_to, h1, h2]

theorem relOf_of_commonpath {srcs : List PyPath} {cp : PyPath}
    (h : commonpath srcs = .ok cp) {s : PyPath} (hs : s ∈ srcs) :
    relOf cp s = ⟨false, s.parts.drop cp.parts.length⟩ := by
  simp [relOf, relative_to_of_commonpath h hs]

theorem isUnder_joinPath (root : PyPath) (parts : List String) :
    (joinPath root ⟨false, parts⟩).isUnder root = true := by
  simp [joinPath, PyPath.isUnder, leads_append]

theorem commonpath_mixed {srcs : List PyPath}
    (hmix : ∃ p ∈ srcs, ∃ q ∈ srcs, p.absolute ≠ q.absolute) :
    commonpath srcs = .error .valueError := by
  obtain ⟨p, hp, q, hq, hpq⟩ := hmix
  match srcs with
  | [] => cases hp
  | r :: rest =>
    rw [commonpath]
    split
    case isTrue hall =>
      have habs : ∀ s ∈ r :: rest, s.absolute = r.absolute := by
        intro s hs
        rcases List.mem_cons.mp hs with h1 | h1
        · rw [h1]
        · simpa using List.all_eq_true.mp hall s h1
      exact absurd ((habs p hp).trans (habs q hq).symm) hpq
    case isFalse => rfl

/-! ### Characterization of the tool invokers -/

theorem run_format_eq (tool : Tool) (c : PyPath) (s : List PyPath)
    (e : List String) (f : FS) (g : Globals) :
    run_format tool c s e f g =
      (invokeResult (tool c s e f).1 (tool c s e f).2.1, (tool c s e f).2.2, g) := by
  rcases g with ⟨ga, go, ge⟩
  rcases h : tool c s e f with ⟨o, out, fs1⟩
  cases o <;> simp [run_format, h, invokeResult]

theorem run_lint_eq (tool : LintTool) (c : PyPath) (s : List PyPath)
    (f : FS) (g : Globals) :
    run_lint tool c s f g =
      (invokeResult (tool c s f).1 (tool c s f).2.1, (tool c s f).2.2, g) := by
  rcases g with ⟨ga, go, ge⟩
  rcases h : tool c s f with ⟨o, out, fs1⟩
  cases o with
  | ret r => simp [run_lint, h, invokeResult]
  | raise => simp [run_lint, h, invokeResult]
  | exit c0 => cases c0 <;> simp [run_lint, h, invokeResult]

theorem invokeResult_of_normStatus {o : ToolOutcome} {v : Int}
    (h : normStatus o = some v) (out : String) :
    invokeResult o out = .ok (v, out) := by
  cases o with
  | raise => simp [normStatus] at h
  | ret r =>
    simp only [normStatus, statusOf] at h
    injection h with h
    simp [invokeResult, h]
  | exit c =>
    simp only [normStatus, statusOf] at h
    injection h with h
    simp [invokeResult, h]

/-! ### Lemmas about the diff model -/

theorem opsSource_map_ins (bs : List String) :
    opsSource (bs.map DiffOp.ins) = [] := by
  induction bs with
  | nil => rfl
  | cons b t ih => simpa [opsSource] using ih

theorem opsTarget_map_ins (bs : List String) :
    opsTarget (bs.map DiffOp.ins) = bs := by
  induction bs with
  | nil => rfl
  | cons b t ih => simp [opsTarget, ih]

theorem opsSource_map_del (l : List String) :
    opsSource (l.map DiffOp.del) = l := by
  induction l with
  | nil => rfl
  | cons x xs ih => simp [opsSource, ih]

theorem opsTarget_map_del (l : List String) :
    opsTarget (l.map DiffOp.del) = [] := by
  induction l with
  | nil => rfl
  | cons x xs ih => simpa [opsTarget] using ih

theorem opsSource_append (x y : List DiffOp) :
    opsSource (x ++ y) = opsSource x ++ opsSource y := by
  induction x with
  | nil => rfl
  | cons o rest ih => cases o <;> simp [opsSource, ih]

theorem opsTarget_append (x y : List DiffOp) :
    opsTarget (x ++ y) = opsTarget x ++ opsTarget y := by
  induction x with
  | nil => rfl
  | cons o rest ih => cases o <;> simp [opsTarget, ih]

theorem diffOpsF_source : ∀ (n : Nat) (a b : List String),
    opsSource (diffOpsF n a b) = a := by
  intro n
  induction n with
  | zero =>
    intro a b
    match a, b with
    | [], bs => simp [diffOpsF, opsSource_map_ins]
    | a :: as, bs =>
      rw [diffOpsF, opsSource_append, opsSource_map_del, opsSource_map_ins,
        List.append_nil]
  | succ n ih =>
    intro a b
    match a, b with
    | [], bs => simp [diffOpsF, opsSource_map_ins]
    | a :: as, [] => rw [diffOpsF, opsSource, ih]
    | a :: as, b :: bs =>
      rw [diffOpsF]
      by_cases hab : a = b
      · rw [if_pos hab, opsSource, ih]
      · rw [if_neg hab]
        by_cases hc : diffCost (diffOpsF n as (b :: bs)) ≤
            diffCost (diffOpsF n (a :: as) bs)
        · simp only [if_pos hc]
          rw [opsSource, ih]
        · simp only [if_neg hc]
          rw [opsSource, ih]

theorem diffOps_source (a b : List String) : opsSource (diffOps a b) = a :=
  diffOpsF_source (a.length + b.length) a b

theorem diffOpsF_target : ∀ (n : Nat) (a b : List String),
    opsTarget (diffOpsF n a b) = b := by
  intro n
  induction n with
  | zero =>
    intro a b
    match a, b with
    | [], bs => simp [diffOpsF, opsTarget_map_ins]
    | a :: as, bs =>
      rw [diffOpsF, opsTarget_append, opsTarget_map_del, opsTarget_map_ins,
        List.nil_append]
  | succ n ih =>
    intro a b
    match a, b with
    | [], bs => simp [diffOpsF, opsTarget_map_ins]
    | a :: as, [] => rw [diffOpsF, opsTarget, ih]
    | a :: as, b :: bs =>
      rw [diffOpsF]
      by_cases hab : a = b
      · rw [if_pos hab, opsTarget, ih, hab]
      · rw [if_neg hab]
        by_cases hc : diffCost (diffOpsF n as (b :: bs)) ≤
            diffCost (diffOpsF n (a :: as) bs)
        · simp only [if_pos hc]
          rw [opsTarget, ih]
        · simp only [if_neg hc]
          rw [opsTarget, ih]

theorem diffOps_target (a b : List String) : opsTarget (diffOps a b) = b :=
  diffOpsF_target (a.length + b.length) a b

theorem diffOpsF_self : ∀ (n : Nat) (a : List String), a.length ≤ n →
    diffOpsF n a a = a.map DiffOp.keep := by
  intro n
  induction n with
  | zero =>
    intro a h
    match a, h with
    | [], _ => rfl
  | succ n ih =>
    intro a h
    match a with
    | [] => rfl
    | x :: xs =>
      rw [diffOpsF, if_pos rfl, ih xs (by simpa using Nat.le_of_succ_le_succ h)]
      rfl

theorem diffOps_self (a : List String) : diffOps a a = a.map DiffOp.keep :=
  diffOpsF_self (a.length + a.length) a (by omega)

theorem all_isKeep_map_keep (a : List String) :
    (a.map DiffOp.keep).all DiffOp.isKeep = true := by
  induction a with
  | nil => rfl
  | cons x xs ih => simp [DiffOp.isKeep, ih]

theorem opsSource_eq_opsTarget_of_allKeep {ops : List DiffOp}
    (h : ops.all DiffOp.isKeep = true) : opsSource ops = opsTarget ops := by
  induction ops with
  | nil => rfl
  | cons o rest ih =>
    cases o with
    | keep s =>
      rw [opsSource, opsTarget, ih (by simpa [DiffOp.isKeep] using h)]
    | del s => simp [DiffOp.isKeep] at h
    | ins s => simp [DiffOp.isKeep] at h

theorem unified_diff_self (a : List String) (ff tf : String) :
    unified_diff a a ff tf = [] := by
  simp [unified_diff, diffOps_self, all_isKeep_map_keep]

theorem unified_diff_of_ne {a b : List String} (h : a ≠ b) (ff tf : String) :
    unified_diff a b ff tf =
      ("--- " ++ ff) :: ("+++ " ++ tf) ::
        ("@@ -" ++ format_range_unified 0 a.length ++ " +" ++
          format_range_unified 0 b.length ++ " @@") ::
        (diffOps a b).map renderOp := by
  have hk : (diffOps a b).all DiffOp.isKeep = false := by
    cases hx : (diffOps a b).all DiffOp.isKeep
    · rfl
    · have hab := opsSource_eq_opsTarget_of_allKeep hx
      rw [diffOps_source, diffOps_target] at hab
      exact absurd hab h
  simp [unified_diff, hk]

/-! ### Lemmas about `splitlines` -/

theorem splitlinesGo_append_newline :
    ∀ (s : List Char) (b : Bool) (cur : List Char),
      (s = [] → (b = true ∨ cur ≠ [])) →
      (∀ c, s.getLast? = some c → isLineBoundary c = false) →
      splitlinesGo b cur (s ++ ['\n']) = splitlinesGo b cur s := by
  intro s
  induction s with
  | nil =>
    intro b cur hc _
    rcases hc rfl with hb | hcur
    · subst hb
      simp [splitlinesGo]
    · cases b
      · have hne : ¬ cur.isEmpty = true := by
          simpa [List.isEmpty_iff] using hcur
        simp [splitlinesGo, isLineBoundary, hne]
      · simp [splitlinesGo]
  | cons c cs ih =>
    intro b cur hc hlast
    have hlast2 : ∀ c2, cs.getLast? = some c2 → isLineBoundary c2 = false := by
      intro c2 h2
      apply hlast
      rcases cs with _ | ⟨d, ds⟩
      · cases h2
      · rwa [List.getLast?_cons_cons]
    rw [List.cons_append, splitlinesGo, splitlinesGo]
    by_cases h1 : b = true ∧ c = '\n'
    · rw [if_pos h1, if_pos h1]
      refine ih false cur ?_ hlast2
      intro h0
      exfalso
      obtain ⟨hb, hcn⟩ := h1
      subst hcn
      subst h0
      have hbd := hlast '\n' rfl
      simp [isLineBoundary] at hbd
    · rw [if_neg h1, if_neg h1]
      by_cases h2 : c = '\r'
      · rw [if_pos h2, if_pos h2]
        rw [ih true [] (fun _ => Or.inl rfl) hlast2]
      · rw [if_neg h2, if_neg h2]
        by_cases h3 : isLineBoundary c = true
        · rw [if_pos h3, if_pos h3]
          refine congrArg _ (ih false [] ?_ hlast2)
          intro h0
          exfalso
          subst h0
          have hbd := hlast c rfl
          rw [h3] at hbd
          cases hbd
        · rw [if_neg h3, if_neg h3]
          exact ih false (c :: cur) (fun _ => Or.inr (by simp)) hlast2

theorem splitlines_append_newline (t : String) (h1 : t.data ≠ [])
    (h2 : ∀ c, t.data.getLast? = some c → isLineBoundary c = false) :
    splitlines (t ++ "\n") = splitlines t := by
  unfold splitlines
  have hd : (t ++ "\n").data = t.data ++ ['\n'] := by
    simp [String.data_append]
  rw [hd, splitlinesGo_append_newline t.data false [] (fun h0 => absurd h0 h1) h2]

/-! ### Lemmas about dicts and the staging loop -/

theorem dictFind_dictInsert (m : List (PyPath × PyPath)) (k v k2 : PyPath) :
    dictFind (dictInsert m k v) k2 = if k = k2 then some v else dictFind m k2 := by
  induction m with
  | nil => simp [dictInsert, dictFind]
  | cons kv rest ih =>
    rcases kv with ⟨k0, v0⟩
    by_cases hk : k = k2
    · subst hk
      by_cases h0 : k0 = k
      · simp [dictInsert, dictFind, h0]
      · simp [dictInsert, dictFind, h0, ih]
    · by_cases h0 : k0 = k
      · have h2 : ¬ k0 = k2 := fun he => hk (h0.symm.trans he)
        simp [dictInsert, dictFind, h0, h2, hk]
      · simp [dictInsert, dictFind, h0, hk, ih]

theorem dictInsert_mem {m : List (PyPath × PyPath)} {k v : PyPath}
    {kv : PyPath × PyPath} (h : kv ∈ dictInsert m k v) : kv ∈ m ∨ kv = (k, v) := by
  induction m with
  | nil =>
    simp only [dictInsert] at h
    exact Or.inr (by simpa using h)
  | cons kv0 rest ih =>
    rcases kv0 with ⟨k0, v0⟩
    by_cases h0 : k0 = k
    · rw [dictInsert, if_pos h0] at h
      rcases List.mem_cons.mp h with h1 | h1
      · exact Or.inr (by rw [h1, h0])
      · exact Or.inl (List.mem_cons_of_mem _ h1)
    · rw [dictInsert, if_neg h0] at h
      rcases List.mem_cons.mp h with h1 | h1
      · exact Or.inl (by rw [h1]; exact List.mem_cons_self _ _)
      · rcases ih h1 with h2 | h2
        · exact Or.inl (List.mem_cons_of_mem _ h2)
        · exact Or.inr h2

theorem dictInsert_keys_of_mem {m : List (PyPath × PyPath)} {k : PyPath} (v : PyPath)
    (h : k ∈ m.map Prod.fst) : (dictInsert m k v).map Prod.fst = m.map Prod.fst := by
  induction m with
  | nil => simp at h
  | cons kv0 rest ih =>
    rcases kv0 with ⟨k0, v0⟩
    by_cases h0 : k0 = k
    · simp [dictInsert, h0]
    · have hk : k ∈ rest.map Prod.fst := by
        simp only [List.map_cons, List.mem_cons] at h
        rcases h with h1 | h1
        · exact absurd h1.symm h0
        · exact h1
      simp [dictInsert, h0, ih hk]

theorem dictInsert_keys_of_not_mem {m : List (PyPath × PyPath)} {k : PyPath} (v : PyPath)
    (h : k ∉ m.map Prod.fst) :
    (dictInsert m k v).map Prod.fst = m.map Prod.fst ++ [k] := by
  induction m with
  | nil => simp [dictInsert]
  | cons kv0 rest ih =>
    rcases kv0 with ⟨k0, v0⟩
    have h0 : ¬ k0 = k := by
      intro he
      exact h (by simp [he])
    have hk : k ∉ rest.map Prod.fst := by
      intro hm
      exact h (by simp [hm])
    simp [dictInsert, h0, ih hk]

theorem dictInsert_keys_mem (m : List (PyPath × PyPath)) (k0 v k : PyPath) :
    k ∈ (dictInsert m k0 v).map Prod.fst ↔ k = k0 ∨ k ∈ m.map Prod.fst := by
  by_cases h : k0 ∈ m.map Prod.fst
  · rw [dictInsert_keys_of_mem v h]
    constructor
    · exact Or.inr
    · rintro (h1 | h1)
      · rwa [h1]
      · exact h1
  · rw [dictInsert_keys_of_not_mem v h]
    simp [or_comm]

theorem copy2_ok_eq {fs : FS} {src dst fs1} (h : copy2 fs src dst = .ok fs1) :
    ∃ c, fs src = some c ∧ fs1 = fs.update dst c := by
  unfold copy2 at h
  rcases hs : fs src with _ | c <;> rw [hs] at h
  · cases h
  · exact ⟨c, rfl, by cases h; rfl⟩

theorem copy2_ok_of_isSome {fs : FS} {src : PyPath} (dst : PyPath)
    (h : (fs src).isSome = true) : ∃ fs1, copy2 fs src dst = .ok fs1 := by
  rcases Option.isSome_iff_exists.mp h with ⟨c, hc⟩
  exact ⟨fs.update dst c, by simp [copy2, hc]⟩

theorem FS.update_ne {fs : FS} {p dst : PyPath} (c : String) (h : p ≠ dst) :
    fs.update dst c p = fs p := by
  simp [FS.update, h]

theorem FS.update_isSome {fs : FS} {p : PyPath} (dst : PyPath) (c : String)
    (h : (fs p).isSome = true) : ((fs.update dst c) p).isSome = true := by
  by_cases he : p = dst <;> simp [FS.update, he, h]

theorem temp_file_isUnder {common temp src : PyPath}
    (h : (relOf common src).absolute = false) :
    (joinPath temp (relOf common src)).isUnder temp = true := by
  rcases hre : relOf common src with ⟨ab, prts⟩
  rw [hre] at h
  simp only at h
  subst h
  exact isUnder_joinPath temp prts

theorem ne_of_isUnder_of_not {p q temp : PyPath} (hq : q.isUnder temp = true)
    (hp : p.isUnder temp = false) : p ≠ q := by
  intro he
  rw [he, hq] at hp
  cases hp

theorem copyLoop_fs_frame (common temp : PyPath) :
    ∀ (l : List PyPath) (m : List (PyPath × PyPath)) (fs : FS),
      (∀ s ∈ l, (relOf common s).absolute = false) →
      ∀ p, p.isUnder temp = false →
      (copyLoop common temp l m fs).2 p = fs p := by
  intro l
  induction l with
  | nil => intro m fs _ p _; rfl
  | cons src rest ih =>
    intro m fs hrel p hp
    rw [copyLoop]
    rcases hc : copy2 fs src (joinPath temp (relOf common src)) with e | fs1
    · rfl
    · obtain ⟨c, hsrc, hfs1⟩ := copy2_ok_eq hc
      have hunder := @temp_file_isUnder common temp src
        (hrel src (List.mem_cons_self _ _))
      have hne := ne_of_isUnder_of_not hunder hp
      rw [ih _ fs1 (fun s hs => hrel s (List.mem_cons_of_mem _ hs)) p hp, hfs1,
        FS.update_ne c hne]

theorem copyLoop_isSome_mono (common temp : PyPath) :
    ∀ (l : List PyPath) (m : List (PyPath × PyPath)) (fs : FS) (p : PyPath),
      (fs p).isSome = true →
      (((copyLoop common temp l m fs).2) p).isSome = true := by
  intro l
  induction l with
  | nil => intro m fs p hp; exact hp
  | cons src rest ih =>
    intro m fs p hp
    rw [copyLoop]
    rcases hc : copy2 fs src (joinPath temp (relOf common src)) with e | fs1
    · exact hp
    · obtain ⟨c, hsrc, hfs1⟩ := copy2_ok_eq hc
      exact ih _ fs1 p (hfs1 ▸ FS.update_isSome _ c hp)

theorem copyLoop_ok_of (common temp : PyPath) :
    ∀ (l : List PyPath) (m : List (PyPath × PyPath)) (fs : FS),
      (∀ s ∈ l, (relOf common s).absolute = false) →
      (∀ s ∈ l, s.isUnder temp = false) →
      (∀ s ∈ l, (fs s).isSome = true) →
      ∃ m2, (copyLoop common temp l m fs).1 = .ok m2 := by
  intro l
  induction l with
  | nil => intro m fs _ _ _; exact ⟨m, rfl⟩
  | cons src rest ih =>
    intro m fs hrel hund hsome
    rw [copyLoop]
    obtain ⟨fs1, hc⟩ := copy2_ok_of_isSome (joinPath temp (relOf common src))
      (hsome src (List.mem_cons_self _ _))
    rw [hc]
    obtain ⟨c, hsrc, hfs1⟩ := copy2_ok_eq hc
    refine ih _ fs1 (fun s hs => hrel s (List.mem_cons_of_mem _ hs))
      (fun s hs => hund s (List.mem_cons_of_mem _ hs)) ?_
    intro s hs
    have hunder := @temp_file_isUnder common temp src
      (hrel src (List.mem_cons_self _ _))
    have hne := ne_of_isUnder_of_not hunder (hund s (List.mem_cons_of_mem _ hs))
    rw [hfs1, FS.update_ne c hne]
    exact hsome s (List.mem_cons_of_mem _ hs)

theorem copyLoop_find (common temp : PyPath) :
    ∀ (l : List PyPath) (m : List (PyPath × PyPath)) (fs : FS) (m2 : List (PyPath × PyPath)),
      (copyLoop common temp l m fs).1 = .ok m2 →
      ∀ s, dictFind m2 s =
        if s ∈ l then some (joinPath temp (relOf common s)) else dictFind m s := by
  intro l
  induction l with
  | nil =>
    intro m fs m2 h s
    rw [copyLoop] at h
    injection h with h
    simp [h]
  | cons src rest ih =>
    intro m fs m2 h s
    rw [copyLoop] at h
    rcases hc : copy2 fs src (joinPath temp (relOf common src)) with e | fs1 <;>
      rw [hc] at h
    · cases h
    · have hfind := ih _ fs1 m2 h s
      by_cases hs1 : s ∈ rest
      · simp [hfind, hs1, List.mem_cons_of_mem _ hs1]
      · by_cases hs2 : s = src
        · rw [hfind, if_neg hs1, dictFind_dictInsert, if_pos hs2.symm, hs2]
          simp
        · rw [hfind, if_neg hs1, dictFind_dictInsert,
            if_neg (fun he => hs2 he.symm)]
          have : ¬ s ∈ src :: rest := by
            intro hm
            rcases List.mem_cons.mp hm with h1 | h1
            · exact hs2 h1
            · exact hs1 h1
          rw [if_neg this]

theorem copyLoop_entries (common temp : PyPath) :
    ∀ (l : List PyPath) (m : List (PyPath × PyPath)) (fs : FS) (m2 : List (PyPath × PyPath)),
      (copyLoop common temp l m fs).1 = .ok m2 →
      ∀ kv ∈ m2, kv ∈ m ∨ (kv.1 ∈ l ∧ kv.2 = joinPath temp (relOf common kv.1)) := by
  intro l
  induction l with
  | nil =>
    intro m fs m2 h kv hkv
    rw [copyLoop] at h
    injection h with h
    exact Or.inl (h ▸ hkv)
  | cons src rest ih =>
    intro m fs m2 h kv hkv
    rw [copyLoop] at h
    rcases hc : copy2 fs src (joinPath temp (relOf common src)) with e | fs1 <;>
      rw [hc] at h
    · cases h
    · rcases ih _ fs1 m2 h kv hkv with h1 | h1
      · rcases dictInsert_mem h1 with h2 | h2
        · exact Or.inl h2
        · refine Or.inr ⟨?_, ?_⟩
          · rw [h2]; exact List.mem_cons_self _ _
          · rw [h2]
      · exact Or.inr ⟨List.mem_cons_of_mem _ h1.1, h1.2⟩

theorem copyLoop_keys_nodup (common temp : PyPath) :
    ∀ (l : List PyPath) (m : List (PyPath × PyPath)) (fs : FS) (m2 : List (PyPath × PyPath)),
      (copyLoop common temp l m fs).1 = .ok m2 →
      (m.map Prod.fst).Nodup → (m2.map Prod.fst).Nodup := by
  intro l
  induction l with
  | nil =>
    intro m fs m2 h hm
    rw [copyLoop] at h
    injection h with h
    exact h ▸ hm
  | cons src rest ih =>
    intro m fs m2 h hm
    rw [copyLoop] at h
    rcases hc : copy2 fs src (joinPath temp (relOf common src)) with e | fs1 <;>
      rw [hc] at h
    · cases h
    · refine ih _ fs1 m2 h ?_
      by_cases hk : src ∈ m.map Prod.fst
      · rwa [dictInsert_keys_of_mem _ hk]
      · rw [dictInsert_keys_of_not_mem _ hk]
        simp [List.nodup_append, hm, hk]

theorem copyLoop_keys_mem (common temp : PyPath) :
    ∀ (l : List PyPath) (m : List (PyPath × PyPath)) (fs : FS) (m2 : List (PyPath × PyPath)),
      (copyLoop common temp l m fs).1 = .ok m2 →
      ∀ k, k ∈ m2.map Prod.fst ↔ k ∈ l ∨ k ∈ m.map Prod.fst := by
  intro l
  induction l with
  | nil =>
    intro m fs m2 h k
    rw [copyLoop] at h
    injection h with h
    simp [h]
  | cons src rest ih =>
    intro m fs m2 h k
    rw [copyLoop] at h
    rcases hc : copy2 fs src (joinPath temp (relOf common src)) with e | fs1 <;>
      rw [hc] at h
    · cases h
    · rw [ih _ fs1 m2 h k, dictInsert_keys_mem]
      simp only [List.mem_cons]
      tauto

theorem copyLoop_staged_some (common temp : PyPath) :
    ∀ (l : List PyPath) (m : List (PyPath × PyPath)) (fs : FS) (m2 : List (PyPath × PyPath)),
      (copyLoop common temp l m fs).1 = .ok m2 →
      (∀ kv ∈ m, ((fs kv.2).isSome = true)) →
      ∀ kv ∈ m2, (((copyLoop common temp l m fs).2) kv.2).isSome = true := by
  intro l
  induction l with
  | nil =>
    intro m fs m2 h hm kv hkv
    rw [copyLoop] at h
    injection h with h
    exact hm kv (h ▸ hkv)
  | cons src rest ih =>
    intro m fs m2 h hm kv hkv
    rw [copyLoop]
    rw [copyLoop] at h
    rcases hc : copy2 fs src (joinPath temp (relOf common src)) with e | fs1 <;>
      rw [hc] at h
    · cases h
    · obtain ⟨c, hsrc, hfs1⟩ := copy2_ok_eq hc
      refine ih _ fs1 m2 h ?_ kv hkv
      intro kv2 hkv2
      rcases dictInsert_mem hkv2 with h1 | h1
      · exact hfs1 ▸ FS.update_isSome _ c (hm kv2 h1)
      · rw [h1, hfs1]
        simp [FS.update]

/-! ### Lemmas about the diff printing loop -/

theorem generate_diff_ok_of_isSome {fs : FS} {a b : PyPath}
    (ha : (fs a).isSome = true) (hb : (fs b).isSome = true) :
    ∃ d, generate_diff fs a b = .ok d := by
  rcases Option.isSome_iff_exists.mp ha with ⟨ca, hca⟩
  rcases Option.isSome_iff_exists.mp hb with ⟨cb, hcb⟩
  exact ⟨_, by rw [generate_diff, hca, hcb]⟩

theorem diffLoop_ok {fs : FS} :
    ∀ (m : List (PyPath × PyPath)),
      (∀ kv ∈ m, ((fs kv.1).isSome = true) ∧ ((fs kv.2).isSome = true)) →
      (diffLoop m fs).2 = .ok () := by
  intro m
  induction m with
  | nil => intro _; rfl
  | cons kv rest ih =>
    intro h
    rcases kv with ⟨a, b⟩
    obtain ⟨ha, hb⟩ := h (a, b) (List.mem_cons_self _ _)
    obtain ⟨d, hd⟩ := generate_diff_ok_of_isSome ha hb
    rw [diffLoop, hd]
    have := ih (fun kv2 hkv2 => h kv2 (List.mem_cons_of_mem _ hkv2))
    rcases hdl : diffLoop rest fs with ⟨out, r⟩
    rw [hdl] at this
    simpa using this

/-! ### Further helpers -/

theorem normStatus_of_ne_raise {o : ToolOutcome} (h : o ≠ .raise) :
    normStatus o = some (statusOf o) := by
  cases o with
  | ret r => rfl
  | exit c => rfl
  | raise => exact absurd rfl h

theorem mem_insertionSort_iff {r : PyPath → PyPath → Prop} [DecidableRel r]
    {l : List PyPath} {a : PyPath} : a ∈ List.insertionSort r l ↔ a ∈ l :=
  (List.perm_insertionSort r l).mem_iff

/-! ### Claim C9 -/

/-- C9: every tool-invoker call restores process-global state on all paths:
after `run_format` or `run_lint` returns or propagates an exception
(including an uncaught tool failure), `sys.argv` and the stdout/stderr
redirection state equal their pre-call values. -/
theorem invoker_restores_globals (tool : Tool) (ltool : LintTool)
    (config : PyPath) (srcs : List PyPath) (extra_args : List String)
    (fs : FS) (g : Globals) :
    (run_format tool config srcs extra_args fs g).2.2 = g ∧
    (run_lint ltool config srcs fs g).2.2 = g := by
  rw [run_format_eq, run_lint_eq]
  exact ⟨rfl, rfl⟩

/-! ### Claim C6 -/

/-- C6: both tool invokers normalize the two completion conventions to one
integer status: a returned integer is the status, a returned `None` is 0, a
`SystemExit` carrying `None` is 0, and a `SystemExit` carrying a value is
that value — in each case paired with the captured combined output. -/
theorem tool_invoker_normalization (tool : Tool) (ltool : LintTool)
    (config : PyPath) (srcs : List PyPath) (extra_args : List String)
    (fs : FS) (g : Globals) (o : ToolOutcome) (out : String) (ff fl : FS)
    (hf : tool config srcs extra_args fs = (o, out, ff))
    (hl : ltool config srcs fs = (o, out, fl))
    (ho : o ≠ .raise) :
    (run_format tool config srcs extra_args fs g).1 = .ok (statusOf o, out) ∧
    (run_lint ltool config srcs fs g).1 = .ok (statusOf o, out) := by
  rw [run_format_eq, run_lint_eq, hf, hl]
  have hn := normStatus_of_ne_raise ho
  exact ⟨invokeResult_of_normStatus hn out, invokeResult_of_normStatus hn out⟩

/-- Witness for C6: a tool finishing through `SystemExit(3)` yields status 3
with its captured output from both invokers. -/
theorem tool_invoker_normalization_witness :
    (run_format toolC6 cfgP [srcA] ["--check"] fs0 g0).1 = .ok (3, "boom") ∧
    (run_lint ltoolC6 cfgP [srcA] fs0 g0).1 = .ok (3, "boom") :=
  tool_invoker_normalization toolC6 ltoolC6 cfgP [srcA] ["--check"] fs0 g0
    (.exit (some 3)) "boom" fs0 fs0 rfl rfl (by decide)

/-! ### Claim C8 -/

/-- C8: the lint runner is one invoker call with no staging and no mutation
of its own: on a non-zero normalized lint status it prints the captured
output to stderr and exits with that same status, leaving the filesystem
exactly as the tool left it; the marker is written if and only if the lint
status is 0. -/
theorem lint_runner_contract (ltool : LintTool) (args : Args) (fs : FS)
    (g : Globals) (o : ToolOutcome) (out : String) (fs1 : FS)
    (hl : ltool args.config args.srcs fs = (o, out, fs1))
    (ho : o ≠ .raise) :
    (statusOf o ≠ 0 →
      (linter_main ltool args fs g).exit = .ok (statusOf o) ∧
      (linter_main ltool args fs g).stderr = [out] ∧
      (linter_main ltool args fs g).fs = fs1) ∧
    (statusOf o = 0 →
      (linter_main ltool args fs g).exit = .ok 0 ∧
      (linter_main ltool args fs g).stderr = [] ∧
      (∀ m, args.marker = some m →
        (linter_main ltool args fs g).fs = fs1.update m "") ∧
      (args.marker = none → (linter_main ltool args fs g).fs = fs1)) := by
  have hi := invokeResult_of_normStatus (normStatus_of_ne_raise ho) out
  have hmain : linter_main ltool args fs g =
      if statusOf o ≠ 0 then ⟨.ok (statusOf o), [out], fs1⟩
      else
        match args.marker with
        | some m => ⟨.ok 0, [], fs1.update m ""⟩
        | none => ⟨.ok 0, [], fs1⟩ := by
    simp only [linter_main, run_lint_eq, hl, hi]
  constructor
  · intro hne
    rw [hmain, if_pos hne]
    exact ⟨rfl, rfl, rfl⟩
  · intro heq
    rw [hmain, if_neg (by simp [heq])]
    cases hm : args.marker with
    | none =>
      refine ⟨rfl, rfl, ?_, fun _ => rfl⟩
      intro m hm2
      exact absurd hm2 (by simp)
    | some m0 =>
      refine ⟨rfl, rfl, ?_, fun hm2 => absurd hm2 (by simp)⟩
      intro m hm2
      obtain rfl := Option.some_inj.mp hm2
      rfl

/-- Witness for C8: a lint tool returning status 2 makes the runner exit 2
with the tool's output and an untouched filesystem; in the same setting a
clean run writes the marker. -/
theorem lint_runner_contract_witness :
    (linter_main ltoolFail argsA fs0 g0).exit = .ok 2 ∧
    (linter_main ltoolFail argsA fs0 g0).stderr = ["lint issues"] ∧
    (linter_main ltoolFail argsA fs0 g0).fs = fs0 ∧
    (linter_main ltoolPass argsA fs0 g0).fs = fs0.update markerP "" := by
  have h1 := (lint_runner_contract ltoolFail argsA fs0 g0 (.ret (some 2))
    "lint issues" fs0 rfl (by decide)).1 (by decide)
  have h2 := ((lint_runner_contract ltoolPass argsA fs0 g0 (.ret none)
    "" fs0 rfl (by decide)).2 (by decide)).2.2.1 markerP rfl
  exact ⟨h1.1, h1.2.1, h1.2.2, h2⟩

/-! ### Claim C4 (corrected) -/

/-- Counterexample to C4 as stated: for one absolute and one relative input
(mixed filesystem roots) the staging step fails with the uncaught
`ValueError` from `os.path.commonpath` instead of staging the files via the
last-two-segments fallback. -/
theorem mixed_roots_counterexample :
    (copy_to_temp_preserving_paths mixedSrcs tempP fs0).1 = .error .valueError ∧
    (copy_to_temp_preserving_paths mixedSrcs tempP fs0).2 = fs0 := by
  exact ⟨rfl, rfl⟩

/-- C4 amended: with mixed filesystem roots among the inputs, staging fails —
`os.path.commonpath` raises an uncaught `ValueError` before any per-file
fallback is consulted, and no file is copied; the last-two-segments fallback
applies only when an individual `relative_to` computation fails against a
successfully computed common ancestor. -/
theorem mixed_roots_staging_fails (srcs : List PyPath) (temp : PyPath) (fs : FS)
    (hmix : ∃ p ∈ srcs, ∃ q ∈ srcs, p.absolute ≠ q.absolute) :
    copy_to_temp_preserving_paths srcs temp fs = (.error .valueError, fs) := by
  have hcp := commonpath_mixed hmix
  match srcs, hmix, hcp with
  | [], ⟨p, hp, _⟩, _ => cases hp
  | [x], ⟨p, hp, q, hq, hpq⟩, _ =>
    rw [List.mem_singleton.mp hp, List.mem_singleton.mp hq] at hpq
    exact absurd rfl hpq
  | a :: b :: r, _, hcp =>
    rw [copy_to_temp_preserving_paths, hcp]
    intro src_abs h
    simp at h

/-- Witness for the amended C4 at the concrete mixed input. -/
theorem mixed_roots_staging_fails_witness :
    copy_to_temp_preserving_paths mixedSrcs tempP fsRel = (.error .valueError, fsRel) :=
  mixed_roots_staging_fails mixedSrcs tempP fsRel
    ⟨⟨true, ["a", "x.tcl"]⟩, by decide, ⟨false, ["b", "y.tcl"]⟩, by decide, by decide⟩

/-! ### Shared helpers about `generate_diff` and `copy_to_temp_preserving_paths` -/

theorem generate_diff_eq {fs : FS} {orig fmtp : PyPath} {o f : String}
    (ho : fs orig = some o) (hf : fs fmtp = some f) :
    generate_diff fs orig fmtp =
      .ok (String.intercalate "\n"
        (unified_diff (splitlines o) (splitlines f) (pathStr orig)
          (pathStr orig ++ " - formatted"))) := by
  simp only [generate_diff, ho, hf]

theorem copy_to_temp_single (src : PyPath) (temp : PyPath) (fs : FS) :
    copy_to_temp_preserving_paths [src] temp fs =
      match copy2 fs src (joinPath temp ⟨false, [src.name]⟩) with
      | .error e => (.error e, fs)
      | .ok fs1 => (.ok [(src, joinPath temp ⟨false, [src.name]⟩)], fs1) := by
  rw [copy_to_temp_preserving_paths]

theorem copy_to_temp_cons2 (a b : PyPath) (r : List PyPath) (temp : PyPath) (fs : FS) :
    copy_to_temp_preserving_paths (a :: b :: r) temp fs =
      match commonpath (a :: b :: r) with
      | .error e => (.error e, fs)
      | .ok common_ancestor => copyLoop common_ancestor temp (a :: b :: r) [] fs := by
  rw [copy_to_temp_preserving_paths]
  intro src_abs h
  simp at h

theorem copy_to_temp_fs_frame (srcs : List PyPath) (temp : PyPath) (fs : FS) :
    ∀ p, p.isUnder temp = false →
      (copy_to_temp_preserving_paths srcs temp fs).2 p = fs p := by
  intro p hp
  match srcs with
  | [] => rfl
  | [src] =>
    rw [copy_to_temp_single]
    rcases hc : copy2 fs src (joinPath temp ⟨false, [src.name]⟩) with e | fs1
    · rfl
    · obtain ⟨c, hsrc, hfs1⟩ := copy2_ok_eq hc
      have hunder := isUnder_joinPath temp [src.name]
      have hne := ne_of_isUnder_of_not hunder hp
      show fs1 p = fs p
      rw [hfs1, FS.update_ne c hne]
  | a :: b :: r =>
    rw [copy_to_temp_cons2]
    rcases hcp : commonpath (a :: b :: r) with e | cp
    · rfl
    · have hrel : ∀ s ∈ a :: b :: r, (relOf cp s).absolute = false := by
        intro s hs
        rw [relOf_of_commonpath hcp hs]
      exact copyLoop_fs_frame cp temp _ [] fs hrel p hp

theorem copy_to_temp_entries_all {srcs : List PyPath} {temp : PyPath} {fs : FS}
    {m2 : List (PyPath × PyPath)}
    (h : (copy_to_temp_preserving_paths srcs temp fs).1 = .ok m2) :
    ∀ kv ∈ m2, kv.1 ∈ srcs ∧ kv.2.isUnder temp = true := by
  match srcs with
  | [] => simp [copy_to_temp_preserving_paths, commonpath] at h
  | [src] =>
    rw [copy_to_temp_single] at h
    rcases hc : copy2 fs src (joinPath temp ⟨false, [src.name]⟩) with e | fs1 <;>
      rw [hc] at h
    · cases h
    · injection h with h
      intro kv hkv
      rw [← h] at hkv
      rcases List.mem_singleton.mp hkv with rfl
      exact ⟨List.mem_singleton.mpr rfl, isUnder_joinPath temp [src.name]⟩
  | a :: b :: r =>
    rw [copy_to_temp_cons2] at h
    rcases hcp : commonpath (a :: b :: r) with e | cp <;> rw [hcp] at h
    · cases h
    · intro kv hkv
      rcases copyLoop_entries cp temp _ [] fs m2 h kv hkv with h1 | h1
      · cases h1
      · refine ⟨h1.1, ?_⟩
        rw [h1.2]
        exact temp_file_isUnder (by rw [relOf_of_commonpath hcp h1.1])

theorem copy_to_temp_ok (srcs : List PyPath) (temp : PyPath) (fs : FS)
    (hnil : srcs ≠ [])
    (habs : ∀ s ∈ srcs, ∀ t2 ∈ srcs, s.absolute = t2.absolute)
    (hex : ∀ s ∈ srcs, (fs s).isSome = true)
    (hund : ∀ s ∈ srcs, s.isUnder temp = false) :
    ∃ m2, (copy_to_temp_preserving_paths srcs temp fs).1 = .ok m2 := by
  match srcs with
  | [] => exact absurd rfl hnil
  | [src] =>
    obtain ⟨fs1, hc⟩ := copy2_ok_of_isSome (joinPath temp ⟨false, [src.name]⟩)
      (hex src (List.mem_singleton.mpr rfl))
    refine ⟨[(src, joinPath temp ⟨false, [src.name]⟩)], ?_⟩
    rw [copy_to_temp_single, hc]
  | a :: b :: r =>
    have hall : (b :: r).all (fun q => q.absolute == a.absolute) = true := by
      rw [List.all_eq_true]
      intro q hq
      exact beq_iff_eq.mpr
        (habs q (List.mem_cons_of_mem _ hq) a (List.mem_cons_self _ _))
    have hcp : commonpath (a :: b :: r) = .ok ⟨a.absolute,
        (b :: r).foldl (fun acc q => commonParts acc q.parts) a.parts⟩ := by
      rw [commonpath, if_pos hall]
    have hrel : ∀ s ∈ a :: b :: r,
        (relOf ⟨a.absolute, (b :: r).foldl (fun acc q => commonParts acc q.parts) a.parts⟩
          s).absolute = false := by
      intro s hs
      rw [relOf_of_commonpath hcp hs]
    obtain ⟨m2, hok⟩ := copyLoop_ok_of _ temp (a :: b :: r) [] fs hrel hund hex
    refine ⟨m2, ?_⟩
    rw [copy_to_temp_cons2, hcp]
    exact hok

theorem copy_to_temp_staged_some {srcs : List PyPath} {temp : PyPath} {fs : FS}
    {m2 : List (PyPath × PyPath)}
    (h : (copy_to_temp_preserving_paths srcs temp fs).1 = .ok m2) :
    ∀ kv ∈ m2, (((copy_to_temp_preserving_paths srcs temp fs).2) kv.2).isSome = true := by
  match srcs with
  | [] => simp [copy_to_temp_preserving_paths, commonpath] at h
  | [src] =>
    rw [copy_to_temp_single] at h ⊢
    rcases hc : copy2 fs src (joinPath temp ⟨false, [src.name]⟩) with e | fs1 <;>
      rw [hc] at h
    · cases h
    · injection h with h
      intro kv hkv
      rw [← h] at hkv
      rcases List.mem_singleton.mp hkv with rfl
      obtain ⟨c, hsrc, hfs1⟩ := copy2_ok_eq hc
      show (fs1 (joinPath temp ⟨false, [src.name]⟩)).isSome = true
      rw [hfs1]
      simp [FS.update]
  | a :: b :: r =>
    rw [copy_to_temp_cons2] at h ⊢
    rcases hcp : commonpath (a :: b :: r) with e | cp <;> rw [hcp] at h
    · cases h
    · exact copyLoop_staged_some cp temp _ [] fs m2 h (fun kv hkv => by cases hkv)

/-! ### Claim C3 -/

/-- C3: staging preserves relative layout: a single input is staged directly
at `<root>/<filename>` whatever its original depth; with several inputs each
file is staged at `<root>/<its path relative to the common ancestor of all
inputs>`, and every input appears exactly once as a key of the staging
map. -/
theorem staging_path_preservation (temp : PyPath) (fs : FS) :
    (∀ (src : PyPath) (c : String), fs src = some c →
      (copy_to_temp_preserving_paths [src] temp fs).1 =
        .ok [(src, joinPath temp ⟨false, [src.name]⟩)]) ∧
    (∀ (srcs : List PyPath) (cp : PyPath) (m2 : List (PyPath × PyPath)),
      2 ≤ srcs.length →
      commonpath srcs = .ok cp →
      (∀ s ∈ srcs, (fs s).isSome = true) →
      (∀ s ∈ srcs, s.isUnder temp = false) →
      (copy_to_temp_preserving_paths srcs temp fs).1 = .ok m2 →
      (∀ s ∈ srcs, ∀ r, relative_to s cp = some r →
        dictFind m2 s = some (joinPath temp r)) ∧
      (m2.map Prod.fst).Nodup ∧
      (∀ k, k ∈ m2.map Prod.fst ↔ k ∈ srcs)) := by
  constructor
  · intro src c hc
    rw [copy_to_temp_single]
    have hcp : copy2 fs src (joinPath temp ⟨false, [src.name]⟩) =
        .ok (fs.update (joinPath temp ⟨false, [src.name]⟩) c) := by
      rw [copy2, hc]
    rw [hcp]
  · intro srcs cp m2 hlen hcp hex hund hok
    match srcs, hlen with
    | a :: b :: r, _ =>
      rw [copy_to_temp_cons2, hcp] at hok
      have hfind := copyLoop_find cp temp (a :: b :: r) [] fs m2 hok
      refine ⟨?_, ?_, ?_⟩
      · intro s hs rel hr
        have hrel : relOf cp s = rel := by rw [relOf, hr]
        rw [hfind s, if_pos hs, hrel]
      · exact copyLoop_keys_nodup cp temp _ [] fs m2 hok (by simp)
      · intro k
        rw [copyLoop_keys_mem cp temp _ [] fs m2 hok k]
        simp

/-- Witness for C3: the spec's example — inputs `a/b/x.tcl` and `a/c/y.tcl`
are staged at `<root>/b/x.tcl` and `<root>/c/y.tcl`, and a lone deep input is
staged at `<root>/<filename>`. -/
theorem staging_path_preservation_witness :
    (copy_to_temp_preserving_paths [srcB] tempP fs0).1 =
      .ok [(srcB, joinPath tempP ⟨false, ["b.tcl"]⟩)] ∧
    dictFind [(relX, ⟨true, ["tmp", "t0", "b", "x.tcl"]⟩),
              (relY, ⟨true, ["tmp", "t0", "c", "y.tcl"]⟩)] relX =
      some (joinPath tempP ⟨false, ["b", "x.tcl"]⟩) ∧
    dictFind [(relX, ⟨true, ["tmp", "t0", "b", "x.tcl"]⟩),
              (relY, ⟨true, ["tmp", "t0", "c", "y.tcl"]⟩)] relY =
      some (joinPath tempP ⟨false, ["c", "y.tcl"]⟩) := by
  have hs := staging_path_preservation tempP fsRel
  have hm := hs.2 [relX, relY] ⟨false, ["a"]⟩
    [(relX, ⟨true, ["tmp", "t0", "b", "x.tcl"]⟩),
     (relY, ⟨true, ["tmp", "t0", "c", "y.tcl"]⟩)]
    (by decide) (by decide)
    (by intro s hs2; fin_cases hs2 <;> decide)
    (by intro s hs2; fin_cases hs2 <;> decide)
    (by decide)
  refine ⟨(staging_path_preservation tempP fs0).1 srcB "set y  2" rfl, ?_, ?_⟩
  · exact hm.1 relX (by decide) ⟨false, ["b", "x.tcl"]⟩ (by decide)
  · exact hm.1 relY (by decide) ⟨false, ["c", "y.tcl"]⟩ (by decide)

/-! ### Claim C5 -/

/-- C5: the emitted diff for a pair is the unified line diff of the two
files' line sequences, labelled with the original path and the original path
plus the formatted-marker suffix; identical line content yields the empty
diff string, which the printing loop drops, contributing nothing to the
diagnostics. -/
theorem generate_diff_spec (fs : FS) (orig fmtp : PyPath) (o f : String)
    (ho : fs orig = some o) (hf : fs fmtp = some f) :
    generate_diff fs orig fmtp =
      .ok (String.intercalate "\n"
        (unified_diff (splitlines o) (splitlines f) (pathStr orig)
          (pathStr orig ++ " - formatted"))) ∧
    (splitlines o = splitlines f → generate_diff fs orig fmtp = .ok "") ∧
    (splitlines o ≠ splitlines f →
      ∃ rest, generate_diff fs orig fmtp =
        .ok (String.intercalate "\n"
          (("--- " ++ pathStr orig) ::
            ("+++ " ++ (pathStr orig ++ " - formatted")) :: rest))) ∧
    (splitlines o = splitlines f →
      ∀ rest, diffLoop ((orig, fmtp) :: rest) fs = diffLoop rest fs) := by
  have h1 := generate_diff_eq ho hf
  have hempty : splitlines o = splitlines f → generate_diff fs orig fmtp = .ok "" := by
    intro he
    rw [h1, he, unified_diff_self]
    rfl
  refine ⟨h1, hempty, ?_, ?_⟩
  · intro hne
    exact ⟨_, by rw [h1, unified_diff_of_ne hne]⟩
  · intro he rest
    have h2 := hempty he
    rcases hdl : diffLoop rest fs with ⟨out, r⟩
    simp [diffLoop, h2, hdl]

/-- Witness for C5: a staged copy differing from its original only in the
final newline has identical line content, so its diff is empty and the
printing loop drops it. -/
theorem generate_diff_spec_witness :
    generate_diff fsW5 srcA stagedA = .ok "" ∧
    diffLoop [(srcA, stagedA)] fsW5 = diffLoop [] fsW5 := by
  have h := generate_diff_spec fsW5 srcA stagedA "set x 1\n" "set x 1" rfl rfl
  exact ⟨h.2.1 rfl, h.2.2.2 rfl []⟩

/-! ### Claim C10 (corrected) -/

/-- Counterexample to C10 as stated: the empty original and a staged copy
holding just a newline differ only in the presence of a trailing final
newline, yet their line sequences (`[]` vs `[""]`) differ, so the diff is
non-empty; likewise a file ending in a non-`\n` line boundary (`"abc\x0B"`
vs `"abc\x0B\n"`, line sequences `["abc"]` vs `["abc", ""]`) yields a
non-empty diff. -/
theorem trailing_newline_counterexample :
    generate_diff fsCE srcA stagedA =
      .ok "--- /work/a.tcl\n+++ /work/a.tcl - formatted\n@@ -0,0 +1 @@\n+" ∧
    ("--- /work/a.tcl\n+++ /work/a.tcl - formatted\n@@ -0,0 +1 @@\n+" : String) ≠ "" ∧
    generate_diff fsVT srcA stagedA ≠ .ok "" := by
  exact ⟨by decide, by decide, by decide⟩

/-- C10 amended: for files whose common content `t` is non-empty, ends in
no line-boundary character, and which differ only in one trailing final
newline, line splitting coincides, so the diff is the empty string in
either orientation; consequently a pipeline run can exit 1 (check failed)
while such a file's diff section of the diagnostics is empty. For content
that is empty or already ends in a line boundary (e.g. `""` vs `"\n"`, or
`"abc\x0B"` vs `"abc\x0B\n"`) the line sequences differ and the diff is
non-empty. -/
theorem trailing_newline_empty_diff :
    (∀ (t : String) (fs : FS) (orig fmtp : PyPath),
      t.data ≠ [] → (∀ c, t.data.getLast? = some c → isLineBoundary c = false) →
      fs orig = some t → fs fmtp = some (t ++ "\n") →
      generate_diff fs orig fmtp = .ok "" ∧ generate_diff fs fmtp orig = .ok "") ∧
    (format_checker_main toolNL argsNL tempP fsNL g0).exit = .ok 1 ∧
    (format_checker_main toolNL argsNL tempP fsNL g0).stderr = ["needs formatting"] := by
  refine ⟨?_, by decide, by decide⟩
  intro t fs orig fmtp h1 h2 ho hf
  have hsp := splitlines_append_newline t h1 h2
  constructor
  · rw [generate_diff_eq ho hf, hsp, unified_diff_self]
    rfl
  · rw [generate_diff_eq hf ho, hsp, unified_diff_self]
    rfl

/-- Witness for the amended C10 at concrete contents `"set x 1"` and
`"set x 1\n"`. -/
theorem trailing_newline_empty_diff_witness :
    generate_diff fsW10 srcA stagedA = .ok "" ∧
    generate_diff fsW10 stagedA srcA = .ok "" :=
  trailing_newline_empty_diff.1 "set x 1" fsW10 srcA stagedA
    (by decide)
    (by
      intro c hc
      obtain rfl := Option.some_inj.mp hc.symm
      decide)
    rfl rfl

/-! ### Characterization of the format-check pipeline -/

theorem cleanupUnder_of_under {fs : FS} {temp p : PyPath}
    (hp : p.isUnder temp = true) : fs.cleanupUnder temp p = none := by
  simp [FS.cleanupUnder, hp]

theorem cleanupUnder_of_not_under {fs : FS} {temp p : PyPath}
    (hp : p.isUnder temp = false) : fs.cleanupUnder temp p = fs p := by
  simp [FS.cleanupUnder, hp]

theorem format_checker_main_eq (tool : Tool) (args : Args) (temp_dir : PyPath)
    (fs : FS) (g : Globals) :
    format_checker_main tool args temp_dir fs g =
      match invokeResult (tool args.config args.srcs ["--check"] fs).1
          (tool args.config args.srcs ["--check"] fs).2.1 with
      | .error e => ⟨.error e, [], (tool args.config args.srcs ["--check"] fs).2.2⟩
      | .ok (check_code, check_output) =>
        if check_code = 0 then
          match args.marker with
          | some m =>
            ⟨.ok 0, [], ((tool args.config args.srcs ["--check"] fs).2.2).update m ""⟩
          | none => ⟨.ok 0, [], (tool args.config args.srcs ["--check"] fs).2.2⟩
        else
          ⟨(withTempBody tool args temp_dir
              ((tool args.config args.srcs ["--check"] fs).2.2) g).exit,
            check_output :: (withTempBody tool args temp_dir
              ((tool args.config args.srcs ["--check"] fs).2.2) g).stderr,
            ((withTempBody tool args temp_dir
              ((tool args.config args.srcs ["--check"] fs).2.2) g).fs).cleanupUnder
              temp_dir⟩ := by
  rcases ht : tool args.config args.srcs ["--check"] fs with ⟨o1, out1, fs1⟩
  cases o1 <;> simp [format_checker_main, run_format_eq, ht, invokeResult]

theorem withTempBody_fs_frame (tool : Tool) (args : Args) (temp_dir : PyPath)
    (fs : FS) (g : Globals)
    (hinplFrame : ∀ c s f p, p ∉ s → (tool c s ["--in-place"] f).2.2 p = f p)
    (p : PyPath) (hp : p.isUnder temp_dir = false) :
    (withTempBody tool args temp_dir fs g).fs p = fs p := by
  simp only [withTempBody]
  rcases hcopy : copy_to_temp_preserving_paths args.srcs temp_dir fs with ⟨res, fs2⟩
  have hfs2 : fs2 p = fs p := by
    have hf := copy_to_temp_fs_frame args.srcs temp_dir fs p hp
    rw [hcopy] at hf
    exact hf
  cases res with
  | error e => exact hfs2
  | ok path_map =>
    dsimp only
    have hok1 : (copy_to_temp_preserving_paths args.srcs temp_dir fs).1 = .ok path_map := by
      rw [hcopy]
    have hnotin : p ∉ List.insertionSort (fun a b => pathStr a ≤ pathStr b)
        (path_map.map Prod.snd) := by
      intro hmem
      rw [mem_insertionSort_iff] at hmem
      rcases List.mem_map.mp hmem with ⟨kv, hkv, hkv2⟩
      have h2 := (copy_to_temp_entries_all hok1 kv hkv).2
      rw [hkv2] at h2
      rw [h2] at hp
      cases hp
    rw [run_format_eq]
    rcases ht : tool args.config (List.insertionSort (fun a b => pathStr a ≤ pathStr b)
        (path_map.map Prod.snd)) ["--in-place"] fs2 with ⟨o2, out2, fs3⟩
    dsimp only
    have hfs3 : fs3 p = fs2 p := by
      have hf := hinplFrame args.config _ fs2 p hnotin
      rw [ht] at hf
      exact hf
    cases o2 with
    | raise => exact hfs3.trans hfs2
    | ret r =>
      simp only [invokeResult]
      by_cases hz : r.getD 0 ≠ 0
      · rw [if_pos hz]
        exact hfs3.trans hfs2
      · rw [if_neg hz]
        rcases hdl : diffLoop path_map fs3 with ⟨diffs, rr⟩
        cases rr <;> exact hfs3.trans hfs2
    | exit c =>
      simp only [invokeResult]
      by_cases hz : c.getD 0 ≠ 0
      · rw [if_pos hz]
        exact hfs3.trans hfs2
      · rw [if_neg hz]
        rcases hdl : diffLoop path_map fs3 with ⟨diffs, rr⟩
        cases rr <;> exact hfs3.trans hfs2

/-! ### Claim C7 -/

/-- C7: the staging directory is created only after a failed check run and
no longer exists after the run on every exit path: starting from a
filesystem with nothing under the fresh temporary root, the final filesystem
again has nothing under it — on the conformant path (and on a check-run
crash) nothing was ever created there, and every path through the staging
block ends in the unconditional `TemporaryDirectory` cleanup. -/
theorem temp_dir_scoped (tool : Tool) (args : Args) (temp_dir : PyPath)
    (fs : FS) (g : Globals)
    (hcheckNW : ∀ c s f, (tool c s ["--check"] f).2.2 = f)
    (hempty : ∀ p, p.isUnder temp_dir = true → fs p = none)
    (hmark : ∀ m, args.marker = some m → m.isUnder temp_dir = false) :
    ∀ p, p.isUnder temp_dir = true →
      (format_checker_main tool args temp_dir fs g).fs p = none := by
  intro p hp
  rw [format_checker_main_eq, hcheckNW args.config args.srcs fs]
  rcases hi : invokeResult (tool args.config args.srcs ["--check"] fs).1
      (tool args.config args.srcs ["--check"] fs).2.1 with e | ⟨n, out⟩
  · exact hempty p hp
  · dsimp only
    by_cases hz : n = 0
    · rw [if_pos hz]
      cases hm : args.marker with
      | none => exact hempty p hp
      | some m =>
        have hne : p ≠ m := by
          intro he
          rw [he] at hp
          rw [hmark m hm] at hp
          cases hp
        show (fs.update m "") p = none
        rw [FS.update_ne _ hne]
        exact hempty p hp
    · rw [if_neg hz]
      exact cleanupUnder_of_under hp

/-- Witness for C7: a run over a non-conformant source leaves no file under
the staging root. -/
theorem temp_dir_scoped_witness :
    (format_checker_main toolNoncon argsA tempP fs0 g0).fs stagedA = none := by
  refine temp_dir_scoped toolNoncon argsA tempP fs0 g0
    (fun c s f => rfl) ?_ ?_ stagedA (by decide)
  · intro p hp
    have h1 : p ≠ srcA := by
      intro he
      rw [he] at hp
      exact absurd hp (by decide)
    have h2 : p ≠ srcB := by
      intro he
      rw [he] at hp
      exact absurd hp (by decide)
    simp [fs0, h1, h2]
  · intro m hm
    obtain rfl := Option.some_inj.mp hm.symm
    decide

/-! ### Claim C1 -/

/-- C1: the format-check pipeline never writes a caller-supplied source
file: whatever the outcome (conformant, staging failure, failed in-place
run, diffs produced, or a crash), every original source's content is
unchanged, because the pipeline writes only beneath the fresh staging root
and to the optional marker path. -/
theorem format_check_no_mutation (tool : Tool) (args : Args)
    (temp_dir : PyPath) (fs : FS) (g : Globals)
    (hcheckNW : ∀ c s f, (tool c s ["--check"] f).2.2 = f)
    (hinplFrame : ∀ c s f p, p ∉ s → (tool c s ["--in-place"] f).2.2 p = f p)
    (hfresh : ∀ src ∈ args.srcs, PyPath.isUnder src temp_dir = false)
    (hmark : ∀ m, args.marker = some m → m ∉ args.srcs) :
    ∀ src ∈ args.srcs,
      (format_checker_main tool args temp_dir fs g).fs src = fs src := by
  intro src hsrc
  rw [format_checker_main_eq, hcheckNW args.config args.srcs fs]
  have hpu : src.isUnder temp_dir = false := hfresh src hsrc
  rcases hi : invokeResult (tool args.config args.srcs ["--check"] fs).1
      (tool args.config args.srcs ["--check"] fs).2.1 with e | ⟨n, out⟩
  · rfl
  · dsimp only
    by_cases hz : n = 0
    · rw [if_pos hz]
      cases hm : args.marker with
      | none => rfl
      | some m =>
        show (fs.update m "") src = fs src
        exact FS.update_ne _ (fun he => hmark m hm (he ▸ hsrc))
    · rw [if_neg hz]
      show ((withTempBody tool args temp_dir fs g).fs).cleanupUnder temp_dir src = fs src
      rw [cleanupUnder_of_not_under hpu]
      exact withTempBody_fs_frame tool args temp_dir fs g hinplFrame src hpu

/-- Witness for C1: after a full non-conformant run the original source's
content is byte-identical. -/
theorem format_check_no_mutation_witness :
    (format_checker_main toolNoncon argsA tempP fs0 g0).fs srcA = some "set x 1" := by
  have h := format_check_no_mutation toolNoncon argsA tempP fs0 g0
    (fun c s f => rfl)
    (by
      intro c s f p hp
      simp only [toolNoncon, mkTool]
      rw [if_neg (by decide)]
      simp [hp])
    (by intro s hs; fin_cases hs; decide)
    (by
      intro m hm
      obtain rfl := Option.some_inj.mp hm.symm
      decide)
    srcA (by decide)
  rw [h]
  rfl

theorem withTempBody_exit (tool : Tool) (args : Args) (temp_dir : PyPath)
    (fs : FS) (g : Globals) (k : Int) (fmtOut : String)
    (hinplFrame : ∀ c s f p, p ∉ s → (tool c s ["--in-place"] f).2.2 p = f p)
    (hinplPresent : ∀ c s f p, p ∈ s → ((tool c s ["--in-place"] f).2.2 p).isSome = true)
    (hin : ∀ s f, normStatus (tool args.config s ["--in-place"] f).1 = some k)
    (hout : ∀ s f, (tool args.config s ["--in-place"] f).2.1 = fmtOut)
    (hnil : args.srcs ≠ [])
    (habs : ∀ s ∈ args.srcs, ∀ t2 ∈ args.srcs, s.absolute = t2.absolute)
    (hex : ∀ s ∈ args.srcs, (fs s).isSome = true)
    (hfresh : ∀ s ∈ args.srcs, s.isUnder temp_dir = false) :
    (k = 0 → (withTempBody tool args temp_dir fs g).exit = .ok 1) ∧
    (k ≠ 0 → (withTempBody tool args temp_dir fs g).exit = .ok k ∧
      (withTempBody tool args temp_dir fs g).stderr = [fmtOut]) := by
  obtain ⟨m2, hok⟩ := copy_to_temp_ok args.srcs temp_dir fs hnil habs hex hfresh
  simp only [withTempBody]
  rcases hcopy : copy_to_temp_preserving_paths args.srcs temp_dir fs with ⟨res, fs2⟩
  rw [hcopy] at hok
  cases res with
  | error e => simp at hok
  | ok pm =>
    simp at hok
    subst hok
    dsimp only
    rw [run_format_eq]
    rcases ht : tool args.config (List.insertionSort (fun a b => pathStr a ≤ pathStr b)
        (pm.map Prod.snd)) ["--in-place"] fs2 with ⟨o2, out2, fs3⟩
    have hno : normStatus o2 = some k := by
      have hh := hin (List.insertionSort (fun a b => pathStr a ≤ pathStr b)
        (pm.map Prod.snd)) fs2
      rw [ht] at hh
      exact hh
    have ho2 : out2 = fmtOut := by
      have hh := hout (List.insertionSort (fun a b => pathStr a ≤ pathStr b)
        (pm.map Prod.snd)) fs2
      rw [ht] at hh
      exact hh
    rw [invokeResult_of_normStatus hno out2]
    dsimp only
    have hok1 : (copy_to_temp_preserving_paths args.srcs temp_dir fs).1 = .ok pm := by
      rw [hcopy]
    constructor
    · intro hk
      subst hk
      rw [if_neg (by simp)]
      have hdiff : (diffLoop pm fs3).2 = .ok () := by
        apply diffLoop_ok
        intro kv hkv
        have hent := copy_to_temp_entries_all hok1 kv hkv
        constructor
        · have hnotin : kv.1 ∉ List.insertionSort (fun a b => pathStr a ≤ pathStr b)
              (pm.map Prod.snd) := by
            intro hmem
            rw [mem_insertionSort_iff] at hmem
            rcases List.mem_map.mp hmem with ⟨kv2, hkv2, hkv2e⟩
            have h2 := (copy_to_temp_entries_all hok1 kv2 hkv2).2
            rw [hkv2e] at h2
            rw [hfresh kv.1 hent.1] at h2
            cases h2
          have hf : fs3 kv.1 = fs2 kv.1 := by
            have hh := hinplFrame args.config _ fs2 kv.1 hnotin
            rw [ht] at hh
            exact hh
          have hf2 : fs2 kv.1 = fs kv.1 := by
            have hh := copy_to_temp_fs_frame args.srcs temp_dir fs kv.1
              (hfresh kv.1 hent.1)
            rw [hcopy] at hh
            exact hh
          rw [hf, hf2]
          exact hex kv.1 hent.1
        · have hmem : kv.2 ∈ List.insertionSort (fun a b => pathStr a ≤ pathStr b)
              (pm.map Prod.snd) := by
            rw [mem_insertionSort_iff]
            exact List.mem_map.mpr ⟨kv, hkv, rfl⟩
          have hpres := hinplPresent args.config _ fs2 kv.2 hmem
          rw [ht] at hpres
          exact hpres
      rcases hdl : diffLoop pm fs3 with ⟨diffs, rr⟩
      rw [hdl] at hdiff
      simp at hdiff
      subst hdiff
      rfl
    · intro hk
      rw [if_pos hk]
      exact ⟨rfl, by rw [ho2]⟩

/-! ### Claim C2 -/

/-- C2: the exit-code/marker contract of the format-check entrypoint: a
check status of 0 exits 0 and creates the marker when requested; a non-zero
check status followed by an in-place run with status 0 exits with the fixed
code 1 (whatever the check status was) and writes no marker; an in-place run
with non-zero status `k` exits with exactly `k`, prints only the check
output and that run's captured output (no diffs), and writes no marker. -/
theorem exit_code_and_marker_contract (tool : Tool) (args : Args)
    (temp_dir : PyPath) (fs : FS) (g : Globals)
    (o1 : ToolOutcome) (out1 : String) (fs1 : FS) (k : Int) (fmtOut : String)
    (hchk : tool args.config args.srcs ["--check"] fs = (o1, out1, fs1))
    (ho1 : o1 ≠ .raise)
    (hcheckNW : ∀ c s f, (tool c s ["--check"] f).2.2 = f)
    (hinplFrame : ∀ c s f p, p ∉ s → (tool c s ["--in-place"] f).2.2 p = f p)
    (hinplPresent : ∀ c s f p, p ∈ s → ((tool c s ["--in-place"] f).2.2 p).isSome = true)
    (hin : ∀ s f, normStatus (tool args.config s ["--in-place"] f).1 = some k)
    (hout : ∀ s f, (tool args.config s ["--in-place"] f).2.1 = fmtOut)
    (hnil : args.srcs ≠ [])
    (habs : ∀ s ∈ args.srcs, ∀ t2 ∈ args.srcs, s.absolute = t2.absolute)
    (hex : ∀ s ∈ args.srcs, (fs s).isSome = true)
    (hfresh : ∀ s ∈ args.srcs, s.isUnder temp_dir = false)
    (hmark : ∀ m, args.marker = some m → m.isUnder temp_dir = false) :
    (statusOf o1 = 0 →
      (format_checker_main tool args temp_dir fs g).exit = .ok 0 ∧
      ∀ m, args.marker = some m →
        (format_checker_main tool args temp_dir fs g).fs m = some "") ∧
    (statusOf o1 ≠ 0 → k = 0 →
      (format_checker_main tool args temp_dir fs g).exit = .ok 1 ∧
      ∀ m, args.marker = some m →
        (format_checker_main tool args temp_dir fs g).fs m = fs m) ∧
    (statusOf o1 ≠ 0 → k ≠ 0 →
      (format_checker_main tool args temp_dir fs g).exit = .ok k ∧
      (format_checker_main tool args temp_dir fs g).stderr = [out1, fmtOut] ∧
      ∀ m, args.marker = some m →
        (format_checker_main tool args temp_dir fs g).fs m = fs m) := by
  have hfs1 : fs1 = fs := by
    have hh := hcheckNW args.config args.srcs fs
    rw [hchk] at hh
    exact hh
  subst fs1
  have hi : invokeResult (tool args.config args.srcs ["--check"] fs).1
      (tool args.config args.srcs ["--check"] fs).2.1 = .ok (statusOf o1, out1) := by
    rw [hchk]
    exact invokeResult_of_normStatus (normStatus_of_ne_raise ho1) out1
  have hfsNW : (tool args.config args.srcs ["--check"] fs).2.2 = fs :=
    hcheckNW args.config args.srcs fs
  have hbody := withTempBody_exit tool args temp_dir fs g k fmtOut
    hinplFrame hinplPresent hin hout hnil habs hex hfresh
  refine ⟨?_, ?_, ?_⟩
  · intro hz
    rw [format_checker_main_eq, hi, hfsNW]
    dsimp only
    rw [if_pos hz]
    cases hm : args.marker with
    | none => exact ⟨rfl, fun m hm2 => absurd hm2 (by simp)⟩
    | some m =>
      refine ⟨rfl, ?_⟩
      intro m2 hm2
      obtain rfl := Option.some_inj.mp hm2
      show (fs.update m "") m = some ""
      simp [FS.update]
  · intro hz hk
    rw [format_checker_main_eq, hi, hfsNW]
    dsimp only
    rw [if_neg hz]
    refine ⟨hbody.1 hk, ?_⟩
    intro m hm2
    show ((withTempBody tool args temp_dir fs g).fs).cleanupUnder temp_dir m = fs m
    rw [cleanupUnder_of_not_under (hmark m hm2)]
    exact withTempBody_fs_frame tool args temp_dir fs g hinplFrame m (hmark m hm2)
  · intro hz hk
    rw [format_checker_main_eq, hi, hfsNW]
    dsimp only
    rw [if_neg hz]
    refine ⟨(hbody.2 hk).1, ?_, ?_⟩
    · show out1 :: (withTempBody tool args temp_dir fs g).stderr = [out1, fmtOut]
      rw [(hbody.2 hk).2]
    · intro m hm2
      show ((withTempBody tool args temp_dir fs g).fs).cleanupUnder temp_dir m = fs m
      rw [cleanupUnder_of_not_under (hmark m hm2)]
      exact withTempBody_fs_frame tool args temp_dir fs g hinplFrame m (hmark m hm2)

theorem mkTool_checkNW (chk inp : ToolOutcome) (co io body : String) :
    ∀ c s f, (mkTool chk inp co io body c s ["--check"] f).2.2 = f :=
  fun _ _ _ => rfl

theorem mkTool_inplFrame (chk inp : ToolOutcome) (co io body : String) :
    ∀ c s f p, p ∉ s → (mkTool chk inp co io body c s ["--in-place"] f).2.2 p = f p := by
  intro c s f p hp
  simp only [mkTool]
  rw [if_neg (by decide)]
  simp [hp]

theorem mkTool_inplPresent (chk inp : ToolOutcome) (co io body : String) :
    ∀ c s f p, p ∈ s →
      ((mkTool chk inp co io body c s ["--in-place"] f).2.2 p).isSome = true := by
  intro c s f p hp
  simp only [mkTool]
  rw [if_neg (by decide)]
  simp [hp]

theorem argsA_srcs_mem {s : PyPath} (hs : s ∈ argsA.srcs) : s = srcA :=
  List.mem_singleton.mp hs

/-- Witness for C2: the three bullets at concrete runs — a conformant tool
exits 0 and creates the marker; a non-conformant check with a clean reformat
exits 1 (not 5) without a marker; a reformat crash with status 7 exits 7,
prints exactly the two captured outputs, and leaves no marker. -/
theorem exit_code_and_marker_contract_witness :
    ((format_checker_main toolPass argsA tempP fs0 g0).exit = .ok 0 ∧
      (format_checker_main toolPass argsA tempP fs0 g0).fs markerP = some "") ∧
    ((format_checker_main toolNoncon argsA tempP fs0 g0).exit = .ok 1 ∧
      (format_checker_main toolNoncon argsA tempP fs0 g0).fs markerP = none) ∧
    ((format_checker_main toolCrash argsA tempP fs0 g0).exit = .ok 7 ∧
      (format_checker_main toolCrash argsA tempP fs0 g0).stderr =
        ["bad format", "fmt crashed"] ∧
      (format_checker_main toolCrash argsA tempP fs0 g0).fs markerP = none) := by
  have hmarkA : ∀ m, argsA.marker = some m → m.isUnder tempP = false := by
    intro m hm
    obtain rfl := Option.some_inj.mp hm.symm
    decide
  have hexA : ∀ s ∈ argsA.srcs, (fs0 s).isSome = true := by
    intro s hs
    obtain rfl := argsA_srcs_mem hs
    decide
  have hfreshA : ∀ s ∈ argsA.srcs, s.isUnder tempP = false := by
    intro s hs
    obtain rfl := argsA_srcs_mem hs
    decide
  have habsA : ∀ s ∈ argsA.srcs, ∀ t2 ∈ argsA.srcs, s.absolute = t2.absolute := by
    intro s hs t2 ht2
    obtain rfl := argsA_srcs_mem hs
    obtain rfl := argsA_srcs_mem ht2
    rfl
  have hnilA : argsA.srcs ≠ [] := by decide
  have h1 := exit_code_and_marker_contract toolPass argsA tempP fs0 g0
    (.ret (some 0)) "" fs0 0 "" rfl (by decide)
    (mkTool_checkNW _ _ _ _ _) (mkTool_inplFrame _ _ _ _ _) (mkTool_inplPresent _ _ _ _ _)
    (fun s f => rfl) (fun s f => rfl) hnilA habsA hexA hfreshA hmarkA
  have h2 := exit_code_and_marker_contract toolNoncon argsA tempP fs0 g0
    (.exit (some 5)) "bad format" fs0 0 "" rfl (by decide)
    (mkTool_checkNW _ _ _ _ _) (mkTool_inplFrame _ _ _ _ _) (mkTool_inplPresent _ _ _ _ _)
    (fun s f => rfl) (fun s f => rfl) hnilA habsA hexA hfreshA hmarkA
  have h3 := exit_code_and_marker_contract toolCrash argsA tempP fs0 g0
    (.exit (some 5)) "bad format" fs0 7 "fmt crashed" rfl (by decide)
    (mkTool_checkNW _ _ _ _ _) (mkTool_inplFrame _ _ _ _ _) (mkTool_inplPresent _ _ _ _ _)
    (fun s f => rfl) (fun s f => rfl) hnilA habsA hexA hfreshA hmarkA
  refine ⟨?_, ?_, ?_⟩
  · have ha := h1.1 (by decide)
    exact ⟨ha.1, ha.2 markerP rfl⟩
  · have hb := h2.2.1 (by decide) rfl
    exact ⟨hb.1, (hb.2 markerP rfl).trans (show fs0 markerP = none from rfl)⟩
  · have hc := h3.2.2 (by decide) (by decide)
    exact ⟨hc.1, hc.2.1, (hc.2.2 markerP rfl).trans (show fs0 markerP = none from rfl)⟩

end RulesTcl
